import Mathlib

/-!
# The `var` variant container of JUCE (`src/containers/juce_Variant.cpp`)

A shallow embedding of the variant type `var`, of its eight type strategies
(`VariantType_Void` ... `VariantType_Method`), of its conversions, comparisons,
copy / assignment / swap operations and of its binary stream format, followed by
theorems about them.

The text class `String` and the byte streams `InputStream` / `OutputStream` are
collaborators whose code is not part of `juce_Variant.cpp`.  They enter the development
as parameters (`StringLib`, `StreamLib`) together with the laws a theorem needs; a
reference library (`refStrings`, `refStreams`) shows that the laws can be met.
-/

namespace juce

/-! ## Machine types -/

/-- One byte of a stream. -/
abbrev Byte := Fin 256

/-- The C++ type `int`: a 32-bit two's-complement integer, kept as its signed value. -/
structure int where
  val : Int
  inRange : -2147483648 ≤ val ∧ val ≤ 2147483647
deriving DecidableEq

/-- The C++ type `int64`: a 64-bit two's-complement integer, kept as its signed value. -/
structure int64 where
  val : Int
  inRange : -9223372036854775808 ≤ val ∧ val ≤ 9223372036854775807
deriving DecidableEq

/-- Reduction of an integer to 32 bits, two's complement: the conversion `(int) x`. -/
def int.wrap (v : Int) : int :=
  ⟨(v + 2147483648) % 4294967296 - 2147483648, by omega⟩

/-- Reduction of an integer to 64 bits, two's complement: the conversion `(int64) x`. -/
def int64.wrap (v : Int) : int64 :=
  ⟨(v + 9223372036854775808) % 18446744073709551616 - 9223372036854775808, by omega⟩

instance : OfNat int n := ⟨int.wrap n⟩

instance : OfNat int64 n := ⟨int64.wrap n⟩

/-- The widening conversion `(int64) i` of an `int`. -/
def int.toInt64 (i : int) : int64 :=
  ⟨i.val, by have := i.inRange; omega⟩

/-- The narrowing conversion `(int) i` of an `int64`: truncation to the low 32 bits. -/
def int64.toInt (i : int64) : int :=
  int.wrap i.val

/-- Number of binary digits of `n`, for `n < 2 ^ fuel`. -/
def bitLength : Nat → Nat → Nat
  | 0, _ => 0
  | fuel + 1, n => if n = 0 then 0 else bitLength fuel (n / 2) + 1

/-- The C++ type `double`: an IEEE 754 binary64 value, as its sign bit, its biased
exponent field (11 bits) and its fraction field (52 bits). -/
structure Double where
  sign : Bool
  exponent : Fin 2048
  mantissa : Fin 4503599627370496
deriving DecidableEq

namespace Double

/-- The literal `0.0`. -/
def zero : Double := ⟨false, 0, 0⟩

/-- The literal `1.0`. -/
def one : Double := ⟨false, 1023, 0⟩

/-- A quiet NaN. -/
def nan : Double := ⟨false, 2047, 2251799813685248⟩

/-- Not-a-number: all exponent bits set and a non-zero fraction. -/
def isNaN (d : Double) : Bool :=
  d.exponent.val == 2047 && d.mantissa.val != 0

/-- Plus or minus zero. -/
def isZero (d : Double) : Bool :=
  d.exponent.val == 0 && d.mantissa.val == 0

/-- The C++ comparison `a == b` of two doubles: false when either side is NaN, true for
the two zeros whatever their signs, and otherwise equality of the bit patterns. -/
def eq (a b : Double) : Bool :=
  !a.isNaN && !b.isNaN && ((a.isZero && b.isZero) || decide (a = b))

/-- The C++ comparison `a != b` of two doubles. -/
def ne (a b : Double) : Bool :=
  !(a.eq b)

/-- The quotient `num * 2 ^ k / den` rounded to the nearest integer, ties to even. -/
def scaledRound (num den : Nat) (k : Int) : Nat :=
  let n := if 0 ≤ k then num * 2 ^ k.toNat else num
  let d := if 0 ≤ k then den else den * 2 ^ (-k).toNat
  let q := n / d
  let r := n % d
  if d < 2 * r ∨ (2 * r = d ∧ q % 2 = 1) then q + 1 else q

/-- The double nearest to `± num / den` (round to nearest, ties to even), with overflow
to infinity and gradual underflow. -/
def ofRatio (neg : Bool) (num den : Nat) : Double :=
  if num = 0 ∨ den = 0 then ⟨neg, 0, 0⟩
  else
    let g : Int := (bitLength num num : Int) - (bitLength den den : Int)
    let lower : Bool :=
      if 0 ≤ g then decide (den * 2 ^ g.toNat ≤ num) else decide (den ≤ num * 2 ^ (-g).toNat)
    -- `2 ^ e ≤ num / den < 2 ^ (e + 1)`
    let e : Int := if lower then g else g - 1
    let e1 : Int := if e < -1022 then -1022 else e
    let m := scaledRound num den (52 - e1)
    -- `m < 2 ^ 52` is a subnormal, `m = 2 ^ 53` carries into the next binade
    let field : Int := if m < 4503599627370496 then 0
                        else if m = 9007199254740992 then e1 + 1024 else e1 + 1023
    if 2047 ≤ field then ⟨neg, 2047, 0⟩
    else ⟨neg, ⟨field.toNat % 2048, Nat.mod_lt _ (by decide)⟩,
               ⟨m % 4503599627370496, Nat.mod_lt _ (by decide)⟩⟩

/-- The conversion `(double) i` of a machine integer. -/
def ofInt (i : Int) : Double :=
  ofRatio (decide (i < 0)) i.natAbs 1

/-- The integer part of a finite double (rounding toward zero); `none` for the
infinities and NaN. -/
def trunc (d : Double) : Option Int :=
  if d.exponent.val = 2047 then none
  else if d.exponent.val < 1023 then some 0
  else
    let m : Nat := 4503599627370496 + d.mantissa.val
    let e : Nat := d.exponent.val - 1023
    let mag : Nat := if 52 ≤ e then m * 2 ^ (e - 52) else m / 2 ^ (52 - e)
    some (if d.sign then -(mag : Int) else (mag : Int))

/-- The conversion `(int) d`: rounding toward zero.  The C++ standard leaves the
conversion undefined when the integer part does not fit; the value chosen here for that
case is the "integer indefinite" `INT_MIN` that the x86 conversion instruction gives. -/
def toInt (d : Double) : int :=
  match d.trunc with
  | some v => if h : -2147483648 ≤ v ∧ v ≤ 2147483647 then ⟨v, h⟩ else int.wrap (-2147483648)
  | none => int.wrap (-2147483648)

/-- The conversion `(int64) d`: rounding toward zero, with the x86 "integer indefinite"
value where the integer part does not fit (see `toInt`). -/
def toInt64 (d : Double) : int64 :=
  match d.trunc with
  | some v =>
    if h : -9223372036854775808 ≤ v ∧ v ≤ 9223372036854775807 then ⟨v, h⟩
    else int64.wrap (-9223372036854775808)
  | none => int64.wrap (-9223372036854775808)

end Double

/-! ## Collaborators: heap objects, text, byte streams -/

/-- A pointer `ReferenceCountedObject*`, as the address it holds; `0` is `nullptr`. -/
abbrev ObjectPtr := Nat

/-- A pointer to member function `var::MethodFunction`, as a number; `0` is the null
member pointer. -/
abbrev MethodFunction := Nat

/-- The reference counts of the heap objects, by address. -/
abbrev RefCounts := ObjectPtr → Int

/-- Modelled from the spec: the method `incReferenceCount` of the reference-counted
object base, which is not part of the file, on the object at `p`. -/
def incReferenceCount (h : RefCounts) (p : ObjectPtr) : RefCounts :=
  fun q => if q = p then h q + 1 else h q

/-- Modelled from the spec: the method `decReferenceCount` of the reference-counted
object base, which is not part of the file, on the object at `p`. -/
def decReferenceCount (h : RefCounts) (p : ObjectPtr) : RefCounts :=
  fun q => if q = p then h q - 1 else h q

/-- The operations of the text class `String` that `juce_Variant.cpp` calls.  The class
is not part of the file, so its operations are parameters; a text is a Lean `String`. -/
structure StringLib where
  /-- The constructor `String (int)`. -/
  ofInt : int → String
  /-- The constructor `String (int64)`. -/
  ofInt64 : int64 → String
  /-- The constructor `String (double)`. -/
  ofDouble : Double → String
  /-- The function `String::toHexString (int)`. -/
  toHexString : int → String
  /-- The method `getIntValue`. -/
  getIntValue : String → int
  /-- The method `getLargeIntValue`. -/
  getLargeIntValue : String → int64
  /-- The method `getDoubleValue`. -/
  getDoubleValue : String → Double
  /-- The method `trim`. -/
  trim : String → String
  /-- The method `equalsIgnoreCase`. -/
  equalsIgnoreCase : String → String → Bool
  /-- The UTF-8 bytes of a text without a terminator: what `copyToUTF8` puts in front of
  the terminating zero, and what `getNumBytesAsUTF8` counts. -/
  toUTF8 : String → List Byte
  /-- The text of a block of UTF-8 bytes, as `MemoryOutputStream::toUTF8` builds it. -/
  fromUTF8 : List Byte → String

/-- Modelled from the spec: the method `String::getNumBytesAsUTF8` of the text class,
the UTF-8 byte length as an `int`. -/
def StringLib.getNumBytesAsUTF8 (sl : StringLib) (s : String) : int :=
  int.wrap (sl.toUTF8 s).length

/-- Modelled from the spec: the method `String::copyToUTF8` of the text class into a
buffer with room for the terminator: the UTF-8 bytes followed by a zero byte. -/
def StringLib.copyToUTF8 (sl : StringLib) (s : String) : List Byte :=
  sl.toUTF8 s ++ [0]

/-- A text without the character NUL. -/
def noNul (s : String) : Prop :=
  ∀ c ∈ s.data, c ≠ Char.ofNat 0

instance (s : String) : Decidable (noNul s) := by
  unfold noNul
  infer_instance

/-- The law of the text class used by the stream format: decoding the zero-terminated
UTF-8 bytes of a text without NUL gives the text back. -/
structure StringLib.Lawful (sl : StringLib) : Prop where
  fromUTF8_copyToUTF8 : ∀ s : String, noNul s → sl.fromUTF8 (sl.copyToUTF8 s) = s

/-- Modelled from the spec: the sequential byte reader `InputStream`, which is not part
of the file, as the bytes that have not been read yet: reading moves the position
forward by dropping bytes from the front. -/
structure InputStream where
  remaining : List Byte
deriving DecidableEq

/-- Modelled from the spec: the sequential byte writer `OutputStream`, which is not part
of the file, as the bytes written so far. -/
structure OutputStream where
  written : List Byte
deriving DecidableEq

/-- The number encodings of the stream classes.  Their byte layout is fixed by
`InputStream` / `OutputStream`, which are not part of the file, so they are parameters:
the bytes each `write...` call appends, and the `read...` calls. -/
structure StreamLib where
  compressedIntBytes : int → List Byte
  readCompressedInt : InputStream → int × InputStream
  intBytes : int → List Byte
  readInt : InputStream → int × InputStream
  int64Bytes : int64 → List Byte
  readInt64 : InputStream → int64 × InputStream
  doubleBytes : Double → List Byte
  readDouble : InputStream → Double × InputStream

/-- The laws of the number encodings: each `read...` call inverts the matching
`write...` call (for `writeCompressedInt`, on the numbers from `0` up) and stops right
after its bytes. -/
structure StreamLib.Lawful (st : StreamLib) : Prop where
  readCompressedInt_bytes : ∀ (n : int) (rest : List Byte), 0 ≤ n.val →
    st.readCompressedInt ⟨st.compressedIntBytes n ++ rest⟩ = (n, ⟨rest⟩)
  readInt_bytes : ∀ (i : int) (rest : List Byte),
    st.readInt ⟨st.intBytes i ++ rest⟩ = (i, ⟨rest⟩)
  readInt64_bytes : ∀ (i : int64) (rest : List Byte),
    st.readInt64 ⟨st.int64Bytes i ++ rest⟩ = (i, ⟨rest⟩)
  readDouble_bytes : ∀ (d : Double) (rest : List Byte),
    st.readDouble ⟨st.doubleBytes d ++ rest⟩ = (d, ⟨rest⟩)

/-- The widths of the fixed-width encodings: an `int` takes 4 bytes, an `int64` and a
`double` take 8. -/
structure StreamLib.FixedWidth (st : StreamLib) : Prop where
  intBytes_length : ∀ i : int, (st.intBytes i).length = 4
  int64Bytes_length : ∀ i : int64, (st.int64Bytes i).length = 8
  doubleBytes_length : ∀ d : Double, (st.doubleBytes d).length = 8

namespace OutputStream

/-- Modelled from the spec: the method `writeByte` appends one byte. -/
def writeByte (output : OutputStream) (b : Byte) : OutputStream :=
  ⟨output.written ++ [b]⟩

/-- Modelled from the spec: the method `write (data, numBytes)` appends the bytes of the
block. -/
def write (output : OutputStream) (data : List Byte) : OutputStream :=
  ⟨output.written ++ data⟩

/-- Modelled from the spec: the method `writeCompressedInt` appends the variable-length
encoding of an `int`. -/
def writeCompressedInt (st : StreamLib) (output : OutputStream) (n : int) : OutputStream :=
  ⟨output.written ++ st.compressedIntBytes n⟩

/-- Modelled from the spec: the method `writeInt` appends the encoding of an `int`. -/
def writeInt (st : StreamLib) (output : OutputStream) (i : int) : OutputStream :=
  ⟨output.written ++ st.intBytes i⟩

/-- Modelled from the spec: the method `writeInt64` appends the encoding of an `int64`. -/
def writeInt64 (st : StreamLib) (output : OutputStream) (i : int64) : OutputStream :=
  ⟨output.written ++ st.int64Bytes i⟩

/-- Modelled from the spec: the method `writeDouble` appends the encoding of a `double`. -/
def writeDouble (st : StreamLib) (output : OutputStream) (d : Double) : OutputStream :=
  ⟨output.written ++ st.doubleBytes d⟩

end OutputStream

namespace InputStream

/-- Modelled from the spec: the method `readByte` gives the next byte and moves past it;
at the end of the stream it gives `0`. -/
def readByte (input : InputStream) : Byte × InputStream :=
  match input.remaining with
  | [] => (0, input)
  | b :: rest => (b, ⟨rest⟩)

/-- Modelled from the spec: the method `skipNextBytes` moves past `n` bytes, or to the
end of the stream if fewer are left. -/
def skipNextBytes (input : InputStream) (n : Int) : InputStream :=
  ⟨input.remaining.drop n.toNat⟩

/-- Modelled from the spec: the call `mo.writeFromInputStream (input, n)` on a fresh
`MemoryOutputStream`: the next `n` bytes (fewer at the end of the stream) move from
`input` into the block. -/
def readIntoMemoryBlock (input : InputStream) (n : Int) : List Byte × InputStream :=
  (input.remaining.take n.toNat, ⟨input.remaining.drop n.toNat⟩)

end InputStream

/-! ## The variant -/

/-- The marker `varMarker_Int` of `enum VariantStreamMarkers`. -/
def varMarker_Int : Byte := 1

/-- The marker `varMarker_BoolTrue`. -/
def varMarker_BoolTrue : Byte := 2

/-- The marker `varMarker_BoolFalse`. -/
def varMarker_BoolFalse : Byte := 3

/-- The marker `varMarker_Double`. -/
def varMarker_Double : Byte := 4

/-- The marker `varMarker_String`. -/
def varMarker_String : Byte := 5

/-- The marker `varMarker_Int64`. -/
def varMarker_Int64 : Byte := 6

/-- The eight strategy singletons `VariantType_Void::instance` ...
`VariantType_Method::instance` that the member `var::type` can point to. -/
inductive VariantType where
  | VariantType_Void
  | VariantType_Int
  | VariantType_Int64
  | VariantType_Bool
  | VariantType_Double
  | VariantType_String
  | VariantType_Object
  | VariantType_Method
deriving DecidableEq, Repr

namespace VariantType

/-- The virtual `isVoid`: false in the base class, overridden by `VariantType_Void`. -/
def isVoid : VariantType → Bool
  | VariantType_Void => true
  | _ => false

/-- The virtual `isInt`: false in the base class, overridden by `VariantType_Int`. -/
def isInt : VariantType → Bool
  | VariantType_Int => true
  | _ => false

/-- The virtual `isInt64`: false in the base class, overridden by `VariantType_Int64`. -/
def isInt64 : VariantType → Bool
  | VariantType_Int64 => true
  | _ => false

/-- The virtual `isBool`: false in the base class, overridden by `VariantType_Bool`. -/
def isBool : VariantType → Bool
  | VariantType_Bool => true
  | _ => false

/-- The virtual `isDouble`: false in the base class, overridden by `VariantType_Double`. -/
def isDouble : VariantType → Bool
  | VariantType_Double => true
  | _ => false

/-- The virtual `isString`: false in the base class, overridden by `VariantType_String`. -/
def isString : VariantType → Bool
  | VariantType_String => true
  | _ => false

/-- The virtual `isObject`: false in the base class, overridden by `VariantType_Object`. -/
def isObject : VariantType → Bool
  | VariantType_Object => true
  | _ => false

/-- The virtual `isMethod`: false in the base class, overridden by `VariantType_Method`. -/
def isMethod : VariantType → Bool
  | VariantType_Method => true
  | _ => false

end VariantType

/-- A `var`: the member `type` (one of the eight strategy singletons) together with the
member of the union `value` that this strategy reads and writes.  Each constructor is
one strategy with its live union member: `intValue`, `int64Value`, `boolValue`,
`doubleValue`, `stringValue`, `objectValue`, `methodValue`. -/
inductive var where
  | vVoid
  | vInt (intValue : int)
  | vInt64 (int64Value : int64)
  | vBool (boolValue : Bool)
  | vDouble (doubleValue : Double)
  | vString (stringValue : String)
  | vObject (objectValue : ObjectPtr)
  | vMethod (methodValue : MethodFunction)
deriving DecidableEq

namespace var

/-- The member `type`. -/
def type : var → VariantType
  | vVoid => .VariantType_Void
  | vInt _ => .VariantType_Int
  | vInt64 _ => .VariantType_Int64
  | vBool _ => .VariantType_Bool
  | vDouble _ => .VariantType_Double
  | vString _ => .VariantType_String
  | vObject _ => .VariantType_Object
  | vMethod _ => .VariantType_Method

/-- The static member `var::null`, a default-constructed `var`. -/
def null : var := vVoid

/-- The method `var::isVoid`. -/
def isVoid (v : var) : Bool := v.type.isVoid

/-- The method `var::isInt`. -/
def isInt (v : var) : Bool := v.type.isInt

/-- The method `var::isInt64`. -/
def isInt64 (v : var) : Bool := v.type.isInt64

/-- The method `var::isBool`. -/
def isBool (v : var) : Bool := v.type.isBool

/-- The method `var::isDouble`. -/
def isDouble (v : var) : Bool := v.type.isDouble

/-- The method `var::isString`. -/
def isString (v : var) : Bool := v.type.isString

/-- The method `var::isObject`. -/
def isObject (v : var) : Bool := v.type.isObject

/-- The method `var::isMethod`. -/
def isMethod (v : var) : Bool := v.type.isMethod

/-- The conversion `operator int`, that is `type->toInt (value)`: the base class gives
`0`, and the strategies Int, Int64, Double, Bool and String override it. -/
def toInt (sl : StringLib) : var → int
  | vInt i => i
  | vInt64 i => i.toInt
  | vDouble d => d.toInt
  | vBool b => if b then 1 else 0
  | vString s => sl.getIntValue s
  | _ => 0

/-- The conversion `operator int64`, that is `type->toInt64 (value)`. -/
def toInt64 (sl : StringLib) : var → int64
  | vInt i => i.toInt64
  | vInt64 i => i
  | vDouble d => d.toInt64
  | vBool b => if b then 1 else 0
  | vString s => sl.getLargeIntValue s
  | _ => 0

/-- The conversion `operator double`, that is `type->toDouble (value)`. -/
def toDouble (sl : StringLib) : var → Double
  | vInt i => Double.ofInt i.val
  | vInt64 i => Double.ofInt i.val
  | vDouble d => d
  | vBool b => if b then Double.one else Double.zero
  | vString s => sl.getDoubleValue s
  | _ => Double.zero

/-- The method `var::toString`, that is `type->toString (value)`: the base class gives
the empty text. -/
def toString (sl : StringLib) : var → String
  | vInt i => sl.ofInt i
  | vInt64 i => sl.ofInt64 i
  | vDouble d => sl.ofDouble d
  | vBool b => String.singleton (if b then '1' else '0')
  | vString s => s
  | vObject p => "Object 0x" ++ sl.toHexString (int.wrap p)
  | vMethod _ => "Method"
  | vVoid => ""

/-- The conversion `operator bool`, that is `type->toBool (value)`: the base class gives
`false`. -/
def toBool (sl : StringLib) : var → Bool
  | vInt i => i.val != 0
  | vInt64 i => i.val != 0
  | vDouble d => d.ne Double.zero
  | vBool b => b
  | vString s =>
      (sl.getIntValue s).val != 0
        || sl.equalsIgnoreCase (sl.trim s) "true"
        || sl.equalsIgnoreCase (sl.trim s) "yes"
  | vObject p => p != 0
  | vMethod m => m != 0
  | vVoid => false

/-- The method `var::getObject`, that is `type->toObject (value)`: the base class gives
`nullptr`, and only `VariantType_Object` overrides it. -/
def getObject : var → ObjectPtr
  | vObject p => p
  | _ => 0

/-- The method `var::equals`, that is `type->equals (value, other.value, *other.type)`:
each strategy converts `other` to its own representation and compares. -/
def equals (sl : StringLib) (v other : var) : Bool :=
  match v with
  | vVoid => other.isVoid
  | vInt i => decide (other.toInt sl = i)
  | vInt64 i => decide (other.toInt64 sl = i)
  | vDouble d => (other.toDouble sl).eq d
  | vBool b => other.toBool sl == b
  | vString s => other.toString sl == s
  | vObject p => other.getObject == p
  | vMethod m =>
      other.isMethod && (match other with
        | vMethod m2 => m2 == m
        | _ => false)

/-- The method `var::equalsWithSameType`. -/
def equalsWithSameType (sl : StringLib) (v other : var) : Bool :=
  decide (v.type = other.type) && v.equals sl other

/-- The method `var::writeToStream`, that is `type->writeToStream (value, output)`.  The
`jassertfalse` of the Object and Method strategies only reports; the statement after it
runs in every build. -/
def writeToStream (sl : StringLib) (st : StreamLib) (v : var) (output : OutputStream) :
    OutputStream :=
  match v with
  | vVoid => output.writeCompressedInt st 0
  | vInt i => ((output.writeCompressedInt st 5).writeByte varMarker_Int).writeInt st i
  | vInt64 i => ((output.writeCompressedInt st 9).writeByte varMarker_Int64).writeInt64 st i
  | vDouble d => ((output.writeCompressedInt st 9).writeByte varMarker_Double).writeDouble st d
  | vBool b =>
      (output.writeCompressedInt st 1).writeByte
        (if b then varMarker_BoolTrue else varMarker_BoolFalse)
  | vString s =>
      let len : int := int.wrap ((sl.getNumBytesAsUTF8 s).val + 1)
      let temp : List Byte := sl.copyToUTF8 s
      ((output.writeCompressedInt st (int.wrap (len.val + 1))).writeByte varMarker_String).write
        (temp.take len.val.toNat)
  | vObject _ => output.writeCompressedInt st 0
  | vMethod _ => output.writeCompressedInt st 0

/-- The static method `var::readFromStream`: the value read and the stream after the
read. -/
def readFromStream (sl : StringLib) (st : StreamLib) (input : InputStream) :
    var × InputStream :=
  let (numBytes, input1) := st.readCompressedInt input
  if 0 < numBytes.val then
    let (marker, input2) := input1.readByte
    if marker = varMarker_Int then
      let (i, input3) := st.readInt input2
      (vInt i, input3)
    else if marker = varMarker_Int64 then
      let (i, input3) := st.readInt64 input2
      (vInt64 i, input3)
    else if marker = varMarker_BoolTrue then (vBool true, input2)
    else if marker = varMarker_BoolFalse then (vBool false, input2)
    else if marker = varMarker_Double then
      let (d, input3) := st.readDouble input2
      (vDouble d, input3)
    else if marker = varMarker_String then
      let (mo, input3) := input2.readIntoMemoryBlock (numBytes.val - 1)
      (vString (sl.fromUTF8 mo), input3)
    else (null, input2.skipNextBytes (numBytes.val - 1))
  else (null, input1)

/-- The virtual `cleanUp` of the strategy of `v`: the Object strategy releases its
reference when the pointer is not null, the String strategy destroys its text (which
changes nothing that can be observed), the others do nothing. -/
def cleanUp (v : var) (h : RefCounts) : RefCounts :=
  match v with
  | vObject p => if p != 0 then decReferenceCount h p else h
  | _ => h

/-- The virtual `createCopy` of the strategy of `source`, together with the adoption of
that strategy: the Object strategy copies the pointer and takes a reference when it is
not null, the String strategy copies the text, the others copy the union. -/
def createCopy (source : var) (h : RefCounts) : var × RefCounts :=
  match source with
  | vObject p => (vObject p, if p != 0 then incReferenceCount h p else h)
  | v => (v, h)

/-- The default constructor `var::var()`. -/
def ctor : var := vVoid

/-- The destructor `var::~var`. -/
def dtor (v : var) (h : RefCounts) : RefCounts :=
  v.cleanUp h

/-- The copy constructor `var::var (const var&)`. -/
def ctorCopy (valueToCopy : var) (h : RefCounts) : var × RefCounts :=
  valueToCopy.createCopy h

/-- The constructor `var::var (const int)`. -/
def ctorInt (value_ : int) : var := vInt value_

/-- The constructor `var::var (const int64)`. -/
def ctorInt64 (value_ : int64) : var := vInt64 value_

/-- The constructor `var::var (const bool)`. -/
def ctorBool (value_ : Bool) : var := vBool value_

/-- The constructor `var::var (const double)`. -/
def ctorDouble (value_ : Double) : var := vDouble value_

/-- The constructors `var::var (const String&)`, `var::var (const char*)` and
`var::var (const wchar_t*)`. -/
def ctorString (value_ : String) : var := vString value_

/-- The constructor `var::var (ReferenceCountedObject*)`. -/
def ctorObject (object : ObjectPtr) (h : RefCounts) : var × RefCounts :=
  (vObject object, if object != 0 then incReferenceCount h object else h)

/-- The constructor `var::var (MethodFunction)`. -/
def ctorMethod (method_ : MethodFunction) : var := vMethod method_

/-- The method `var::swapWith`: the new `*this` and the new `other`. -/
def swapWith (v other : var) : var × var :=
  (other, v)

/-- The assignment `operator= (const var&)`: the new `*this` and the reference counts. -/
def assign (v newValue : var) (h : RefCounts) : var × RefCounts :=
  newValue.createCopy (v.cleanUp h)

/-- The assignment `operator= (const int)`. -/
def assignInt (v : var) (newValue : int) (h : RefCounts) : var × RefCounts :=
  (vInt newValue, v.cleanUp h)

/-- The assignment `operator= (const int64)`. -/
def assignInt64 (v : var) (newValue : int64) (h : RefCounts) : var × RefCounts :=
  (vInt64 newValue, v.cleanUp h)

/-- The assignment `operator= (const bool)`. -/
def assignBool (v : var) (newValue : Bool) (h : RefCounts) : var × RefCounts :=
  (vBool newValue, v.cleanUp h)

/-- The assignment `operator= (const double)`. -/
def assignDouble (v : var) (newValue : Double) (h : RefCounts) : var × RefCounts :=
  (vDouble newValue, v.cleanUp h)

/-- The assignments `operator= (const String&)`, `operator= (const char*)` and
`operator= (const wchar_t*)`: a temporary is built, swapped in and destroyed. -/
def assignString (v : var) (newValue : String) (h : RefCounts) : var × RefCounts :=
  let tmp := ctorString newValue
  let (v1, tmp1) := v.swapWith tmp
  (v1, tmp1.dtor h)

/-- The assignment `operator= (ReferenceCountedObject*)`. -/
def assignObject (v : var) (newValue : ObjectPtr) (h : RefCounts) : var × RefCounts :=
  let (tmp, h1) := ctorObject newValue h
  let (v1, tmp1) := v.swapWith tmp
  (v1, tmp1.dtor h1)

/-- The assignment `operator= (MethodFunction)`. -/
def assignMethod (v : var) (newValue : MethodFunction) (h : RefCounts) : var × RefCounts :=
  let tmp := ctorMethod newValue
  let (v1, tmp1) := v.swapWith tmp
  (v1, tmp1.dtor h)

end var

/-! ## Programs over variables of type `var` -/

/-- A native value that a `var` can be constructed from or assigned. -/
inductive Native where
  | nInt (value : int)
  | nInt64 (value : int64)
  | nBool (value : Bool)
  | nDouble (value : Double)
  | nString (value : String)
  | nObject (value : ObjectPtr)
  | nMethod (value : MethodFunction)

/-- The variables of a program, in order of declaration, and the reference counts. -/
structure Store where
  vars : List var
  refs : RefCounts

/-- One statement of a program: a declaration with one of the constructors, or an
assignment or swap between variables that exist (numbered from `0`). -/
inductive Step where
  | declare
  | declareNative (x : Native)
  | declareCopy (j : Nat)
  | assign (i j : Nat)
  | assignNative (i : Nat) (x : Native)
  | swap (i j : Nat)

/-- The typed constructor that C++ overload resolution selects for a native value. -/
def Native.construct (x : Native) (h : RefCounts) : var × RefCounts :=
  match x with
  | nInt i => (var.ctorInt i, h)
  | nInt64 i => (var.ctorInt64 i, h)
  | nBool b => (var.ctorBool b, h)
  | nDouble d => (var.ctorDouble d, h)
  | nString s => (var.ctorString s, h)
  | nObject p => var.ctorObject p h
  | nMethod m => (var.ctorMethod m, h)

/-- The assignment operator that C++ overload resolution selects for a native value. -/
def Native.assignTo (x : Native) (v : var) (h : RefCounts) : var × RefCounts :=
  match x with
  | nInt i => v.assignInt i h
  | nInt64 i => v.assignInt64 i h
  | nBool b => v.assignBool b h
  | nDouble d => v.assignDouble d h
  | nString s => v.assignString s h
  | nObject p => v.assignObject p h
  | nMethod m => v.assignMethod m h

/-- Execution of one statement.  A statement that names a variable that does not exist
is not a program text and leaves the store as it is. -/
def Step.exec (s : Store) : Step → Store
  | declare => ⟨s.vars ++ [var.ctor], s.refs⟩
  | declareNative x =>
      let (v, h) := x.construct s.refs
      ⟨s.vars ++ [v], h⟩
  | declareCopy j =>
      match s.vars.get? j with
      | some b =>
          let (v, h) := b.ctorCopy s.refs
          ⟨s.vars ++ [v], h⟩
      | none => s
  | assign i j =>
      match s.vars.get? i, s.vars.get? j with
      | some a, some b =>
          let (v, h) := a.assign b s.refs
          ⟨s.vars.set i v, h⟩
      | _, _ => s
  | assignNative i x =>
      match s.vars.get? i with
      | some a =>
          let (v, h) := x.assignTo a s.refs
          ⟨s.vars.set i v, h⟩
      | none => s
  | swap i j =>
      match s.vars.get? i, s.vars.get? j with
      | some a, some b =>
          let (a1, b1) := a.swapWith b
          ⟨(s.vars.set i a1).set j b1, s.refs⟩
      | _, _ => s

/-- Execution of a program from a given store. -/
def Store.run (s : Store) (prog : List Step) : Store :=
  prog.foldl Step.exec s

/-- The store before the first statement: no variable, and given reference counts. -/
def Store.initial (h : RefCounts) : Store :=
  ⟨[], h⟩

/-- The number of the eight type predicates that hold of `v`. -/
def var.numTypePredicates (v : var) : Nat :=
  [v.isVoid, v.isInt, v.isInt64, v.isBool, v.isDouble, v.isString, v.isObject,
    v.isMethod].count true

/-! ## A reference text library

The definitions of this section model the text collaborator, which is not part of
`juce_Variant.cpp`; they are used to show that the laws asked of a `StringLib` can be
met, and to evaluate examples. -/

/-- Modelled from the spec: the UTF-8 bytes of one character. -/
def utf8EncodeChar (c : Char) : List Byte :=
  let n := c.toNat
  if n < 128 then [Fin.ofNat n]
  else if n < 2048 then [Fin.ofNat (192 + n / 64), Fin.ofNat (128 + n % 64)]
  else if n < 65536 then
    [Fin.ofNat (224 + n / 4096), Fin.ofNat (128 + n / 64 % 64), Fin.ofNat (128 + n % 64)]
  else
    [Fin.ofNat (240 + n / 262144), Fin.ofNat (128 + n / 4096 % 64),
      Fin.ofNat (128 + n / 64 % 64), Fin.ofNat (128 + n % 64)]

/-- Modelled from the spec: the UTF-8 bytes of a list of characters. -/
def utf8Encode : List Char → List Byte
  | [] => []
  | c :: cs => utf8EncodeChar c ++ utf8Encode cs

/-- Modelled from the spec: the characters of a block of UTF-8 bytes, up to the first zero
byte or the end of the block. The lead byte gives the number of continuation bytes, each
of which adds six bits; a sequence cut short by the end of the block is dropped. -/
def utf8Decode : List Byte → List Char
  | [] => []
  | b :: rest =>
    if b.val = 0 then []
    else if b.val < 128 then Char.ofNat b.val :: utf8Decode rest
    else if b.val < 224 then
      match rest with
      | b1 :: rest1 => Char.ofNat (b.val % 32 * 64 + b1.val % 64) :: utf8Decode rest1
      | _ => []
    else if b.val < 240 then
      match rest with
      | b1 :: b2 :: rest2 =>
          Char.ofNat (b.val % 16 * 4096 + b1.val % 64 * 64 + b2.val % 64) :: utf8Decode rest2
      | _ => []
    else
      match rest with
      | b1 :: b2 :: b3 :: rest3 =>
          Char.ofNat (b.val % 8 * 262144 + b1.val % 64 * 4096 + b2.val % 64 * 64 + b3.val % 64)
            :: utf8Decode rest3
      | _ => []

/-- The value of a run of decimal digits at the front of a text, continuing from `acc`. -/
def parseDigits : List Char → Nat → Nat
  | [], acc => acc
  | c :: cs, acc => if c.isDigit then parseDigits cs (acc * 10 + (c.toNat - 48)) else acc

/-- Modelled from the spec: the whole-number parse of `getIntValue` / `getLargeIntValue`:
leading white space, an optional minus sign, then the digits up to the first other
character; `0` if there is no digit. -/
def parseInteger (s : String) : Int :=
  match s.data.dropWhile Char.isWhitespace with
  | '-' :: cs => -(parseDigits cs 0 : Int)
  | cs => (parseDigits cs 0 : Int)

/-- Modelled from the spec: the method `trim`, removal of the white space at both ends
of a text. -/
def trimText (s : String) : String :=
  ⟨((s.data.dropWhile Char.isWhitespace).reverse.dropWhile Char.isWhitespace).reverse⟩

/-- Modelled from the spec: the locale-free decimal text of a double, exact: the integer
part, and the fraction digits (after a point) when the value is not whole. -/
def decimalText (d : Double) : String :=
  let sign := if d.sign then "-" else ""
  if d.exponent.val = 2047 then (if d.mantissa.val = 0 then sign ++ "inf" else "nan")
  else
    let m : Nat := if d.exponent.val = 0 then d.mantissa.val
                   else 4503599627370496 + d.mantissa.val
    let e : Nat := if d.exponent.val = 0 then 1 else d.exponent.val
    -- the magnitude is `m * 2 ^ (e - 1075)`
    if 1075 ≤ e then sign ++ Nat.repr (m * 2 ^ (e - 1075))
    else
      let j := 1075 - e
      let whole := m / 2 ^ j
      let frac := m % 2 ^ j * 5 ^ j
      if frac = 0 then sign ++ Nat.repr whole
      else
        let digits := Nat.toDigits 10 frac
        let padded := List.replicate (j - digits.length) '0' ++ digits
        let stripped := (padded.reverse.dropWhile (fun c => c == '0')).reverse
        sign ++ Nat.repr whole ++ "." ++ String.mk stripped

/-- Modelled from the spec: the decimal parse of `getDoubleValue`: leading white space, an
optional sign, digits and an optional point with fraction digits, rounded to the nearest
double. -/
def parseDecimal (s : String) : Double :=
  let cs := s.data.dropWhile Char.isWhitespace
  let neg : Bool := match cs with
    | '-' :: _ => true
    | _ => false
  let body := match cs with
    | '-' :: r => r
    | '+' :: r => r
    | r => r
  let whole := body.takeWhile Char.isDigit
  let frac := match body.dropWhile Char.isDigit with
    | '.' :: r => r.takeWhile Char.isDigit
    | _ => []
  Double.ofRatio neg (parseDigits (whole ++ frac) 0) (10 ^ frac.length)

/-- Modelled from the spec: the text collaborator (its section 6.2 lists the operations),
which is not part of `juce_Variant.cpp`.  Numbers print as decimal text and parse from
their leading numeric part, `0` if there is none; texts are encoded as UTF-8. -/
def refStrings : StringLib where
  ofInt i := Int.repr i.val
  ofInt64 i := Int.repr i.val
  ofDouble d := decimalText d
  toHexString i := String.mk (Nat.toDigits 16 (i.val % 4294967296).toNat)
  getIntValue s := int.wrap (parseInteger s)
  getLargeIntValue s := int64.wrap (parseInteger s)
  getDoubleValue s := parseDecimal s
  trim s := trimText s
  equalsIgnoreCase a b := a.data.map Char.toLower == b.data.map Char.toLower
  toUTF8 s := utf8Encode s.data
  fromUTF8 bytes := String.mk (utf8Decode bytes)

/-! ## A reference stream library

The definitions of this section model the byte-stream collaborator, which is not part
of `juce_Variant.cpp`; they are used to show that the laws asked of a `StreamLib` can
be met, and to evaluate examples. -/

/-- The `k` low bytes of `n`, least significant first. -/
def leBytes : Nat → Nat → List Byte
  | 0, _ => []
  | k + 1, n => Fin.ofNat (n % 256) :: leBytes k (n / 256)

/-- The bytes of `n`, least significant first, up to its most significant non-zero byte
and at most `k` of them. -/
def leBytesMin : Nat → Nat → List Byte
  | 0, _ => []
  | k + 1, n => if n = 0 then [] else Fin.ofNat (n % 256) :: leBytesMin k (n / 256)

/-- The number whose bytes, least significant first, are given. -/
def leValue : List Byte → Nat
  | [] => 0
  | b :: bs => b.val + 256 * leValue bs

/-- The 64 bits of a double as a number. -/
def Double.toBits (d : Double) : Nat :=
  (if d.sign then 9223372036854775808 else 0) + d.exponent.val * 4503599627370496
    + d.mantissa.val

/-- The double with the given 64 bits. -/
def Double.ofBits (n : Nat) : Double :=
  ⟨decide (n / 9223372036854775808 % 2 = 1), Fin.ofNat (n / 4503599627370496 % 2048),
    Fin.ofNat (n % 4503599627370496)⟩

/-- Modelled from the spec: reads `k` bytes as a little-endian number; at the end of the
stream the result is `0` and what was left of the stream has been consumed. -/
def readLE (k : Nat) (input : InputStream) : Nat × InputStream :=
  if input.remaining.length < k then (0, ⟨[]⟩)
  else (leValue (input.remaining.take k), ⟨input.remaining.drop k⟩)

/-- Modelled from the spec: the bytes of `writeCompressedInt`: a byte holding the number
of bytes of the magnitude (at most four) with the sign in its top bit, then the bytes of
the magnitude, least significant first. -/
def compressedIntBytes (value : int) : List Byte :=
  let data := leBytesMin 4 value.val.natAbs
  Fin.ofNat (data.length + (if value.val < 0 then 128 else 0)) :: data

/-- Modelled from the spec: the method `readCompressedInt`: `0` for a size byte of zero,
for a size above four and for a stream that ends early. -/
def readCompressedInt (input : InputStream) : int × InputStream :=
  let (sizeByte, input1) := input.readByte
  if sizeByte.val = 0 then (0, input1)
  else
    let numBytes := sizeByte.val % 128
    if 4 < numBytes then (0, input1)
    else if input1.remaining.length < numBytes then (0, ⟨[]⟩)
    else
      let num := int.wrap (leValue (input1.remaining.take numBytes))
      (if 128 ≤ sizeByte.val then int.wrap (-num.val) else num,
        ⟨input1.remaining.drop numBytes⟩)

/-- Modelled from the spec: the byte-stream collaborator (its section 6.2 lists the
operations), which is not part of `juce_Variant.cpp`.  Numbers of fixed width are
written least significant byte first, a double as its 64 bits. -/
def refStreams : StreamLib where
  compressedIntBytes := compressedIntBytes
  readCompressedInt := readCompressedInt
  intBytes i := leBytes 4 (i.val % 4294967296).toNat
  readInt input := ((int.wrap (readLE 4 input).1), (readLE 4 input).2)
  int64Bytes i := leBytes 8 (i.val % 18446744073709551616).toNat
  readInt64 input := ((int64.wrap (readLE 8 input).1), (readLE 8 input).2)
  doubleBytes d := leBytes 8 d.toBits
  readDouble input := (Double.ofBits (readLE 8 input).1, (readLE 8 input).2)

/-! ## The stream format as the specification tabulates it -/

/-- The length field of the stream format by kind, in the words of the format table:
`0` for Void, `1` for Bool, `5` for Int, `9` for Int64 and Double, the UTF-8 byte length
with its terminator plus one for String; Object and Method are written as a zero
length. -/
def specLengthField (sl : StringLib) : var → Nat
  | .vVoid => 0
  | .vBool _ => 1
  | .vInt _ => 5
  | .vInt64 _ => 9
  | .vDouble _ => 9
  | .vString s => ((sl.toUTF8 s).length + 1) + 1
  | .vObject _ => 0
  | .vMethod _ => 0

/-- The marker byte of the stream format by kind, in the words of the format table; no
marker is written for Void, Object and Method. -/
def specMarker : var → Option Byte
  | .vInt _ => some 1
  | .vBool true => some 2
  | .vBool false => some 3
  | .vDouble _ => some 4
  | .vString _ => some 5
  | .vInt64 _ => some 6
  | _ => none

/-- A text of 2147483646 letters `a`: its UTF-8 form has 2147483646 bytes, two less than
the first size that no `int` can hold. -/
def hugeText : String :=
  String.mk (List.replicate 2147483646 'a')

/-! ## Property and method forwarding -/

/-- A property or method name, `Identifier`, as its text. -/
abbrev Identifier := String

/-- The objects behind the handles.  `DynamicObject` and the bound member functions are
not part of the file, so what they return is a parameter: whether the object at an
address is a `DynamicObject` (the `dynamic_cast` succeeds), what its `getProperty` and
`invokeMethod` return, and what a call through a member pointer returns. -/
structure ObjectLib where
  isDynamicObject : ObjectPtr → Bool
  getProperty : ObjectPtr → Identifier → var
  invokeMethod : ObjectPtr → Identifier → List var → var
  callMember : MethodFunction → ObjectPtr → List var → var

/-- A call that leaves `juce_Variant.cpp` for a collaborator object. -/
inductive Call where
  | getProperty (o : ObjectPtr) (propertyName : Identifier)
  | invokeMethod (o : ObjectPtr) (method : Identifier) (arguments : List var)
  | callMember (m : MethodFunction) (target : ObjectPtr) (arguments : List var)
deriving DecidableEq

namespace var

/-- The method `var::getDynamicObject`, `dynamic_cast <DynamicObject*> (getObject())`:
the handle when it is not null and the object is a `DynamicObject`, else `nullptr`. -/
def getDynamicObject (ol : ObjectLib) (v : var) : ObjectPtr :=
  if v.getObject != 0 && ol.isDynamicObject v.getObject then v.getObject else 0

/-- The operator `var::operator[]`: the value returned and the calls made. -/
def index (ol : ObjectLib) (v : var) (propertyName : Identifier) : var × List Call :=
  let o := v.getDynamicObject ol
  if o != 0 then (ol.getProperty o propertyName, [Call.getProperty o propertyName])
  else (null, [])

/-- The method `var::invoke`: the value returned and the calls made. -/
def invoke (ol : ObjectLib) (v : var) (method : Identifier) (arguments : List var) :
    var × List Call :=
  let o := v.getDynamicObject ol
  if o != 0 then (ol.invokeMethod o method arguments, [Call.invokeMethod o method arguments])
  else (null, [])

/-- The method `var::invokeMethod`: the value returned and the calls made.  The
`jassert (target != nullptr)` only reports. -/
def invokeMethod (ol : ObjectLib) (v : var) (target : ObjectPtr) (arguments : List var) :
    var × List Call :=
  if v.isMethod then
    match v with
    | vMethod m => (ol.callMember m target arguments, [Call.callMember m target arguments])
    | _ => (null, [])
  else (null, [])

/-- The value that `readFromStream` builds from the bytes written for `v`: for a String
the text goes through `copyToUTF8` and back through `MemoryOutputStream::toUTF8`. -/
def decoded (sl : StringLib) : var → var
  | vString s => vString (sl.fromUTF8 (sl.copyToUTF8 s))
  | v => v

/-- Successive calls of `writeToStream` on one stream, one per value. -/
def writeAll (sl : StringLib) (st : StreamLib) : List var → OutputStream → OutputStream
  | [], output => output
  | v :: vs, output => writeAll sl st vs (v.writeToStream sl st output)

/-- The results of `n` successive calls of `readFromStream` on one stream, in order, and
the stream after them. -/
def readMany (sl : StringLib) (st : StreamLib) : Nat → InputStream → List var × InputStream
  | 0, input => ([], input)
  | n + 1, input =>
      let r := readFromStream sl st input
      let rs := readMany sl st n r.2
      (r.1 :: rs.1, rs.2)

/-- A value that the stream format has a marker for, of a size that the writer can
compute: of kind Void, Int, Int64, Bool, Double or String, the UTF-8 length of a text
fitting an `int` with two to spare. -/
def streamable (sl : StringLib) : var → Prop
  | vObject _ => False
  | vMethod _ => False
  | vString s => (sl.toUTF8 s).length + 2 ≤ 2147483647
  | _ => True

instance (sl : StringLib) (v : var) : Decidable (v.streamable sl) := by
  cases v <;> simp only [streamable] <;> infer_instance

end var

/-- The decimal forms of the number five in the text class: `5` prints as the text `5`
from an `int`, an `int64` and a `double`, and the text `5` parses to `5`. -/
structure StringLib.DecimalFive (sl : StringLib) : Prop where
  ofInt_five : sl.ofInt 5 = "5"
  ofInt64_five : sl.ofInt64 5 = "5"
  ofDouble_five : sl.ofDouble (Double.ofInt 5) = "5"
  getIntValue_five : sl.getIntValue "5" = 5
  getLargeIntValue_five : sl.getLargeIntValue "5" = 5
  getDoubleValue_five : sl.getDoubleValue "5" = Double.ofInt 5

/-! ## Objects that are deleted at their last release -/

/-- Modelled from the spec: the heap of the reference-counted objects with their
lifetimes: the count of every object and the objects deleted so far.  An object is shared
by its owners and lives until the last of them releases it. -/
structure Heap where
  refCount : RefCounts
  deleted : ObjectPtr → Bool

/-- Modelled from the spec: the method `incReferenceCount` of the reference-counted
object at `p`, on a heap with lifetimes: the count goes up by one. -/
def Heap.incReferenceCount (h : Heap) (p : ObjectPtr) : Heap :=
  ⟨juce.incReferenceCount h.refCount p, h.deleted⟩

/-- Modelled from the spec: the method `decReferenceCount` of the reference-counted
object at `p`, on a heap with lifetimes: the count goes down by one, and the object is
deleted when the count has reached zero. -/
def Heap.decReferenceCount (h : Heap) (p : ObjectPtr) : Heap :=
  ⟨juce.decReferenceCount h.refCount p,
    fun q => if q = p ∧ juce.decReferenceCount h.refCount p p = 0 then true else h.deleted q⟩

/-- The virtual `cleanUp` on a heap with lifetimes: `VariantType_Object::cleanUp` calls
`decReferenceCount` on the handle when it is not null, the other strategies leave the
heap alone. -/
def var.cleanUpOn (v : var) (h : Heap) : Heap :=
  match v with
  | .vObject p => if p != 0 then h.decReferenceCount p else h
  | _ => h

/-- The virtual `createCopy` on a heap with lifetimes: `VariantType_Object::createCopy`
copies the handle and calls `incReferenceCount` on it when it is not null. -/
def var.createCopyOn (source : var) (h : Heap) : var × Heap :=
  match source with
  | .vObject p => (.vObject p, if p != 0 then h.incReferenceCount p else h)
  | v => (v, h)

/-- The constructor `var::var (ReferenceCountedObject*)` on a heap with lifetimes. -/
def var.ctorObjectOn (object : ObjectPtr) (h : Heap) : var × Heap :=
  (.vObject object, if object != 0 then h.incReferenceCount object else h)

/-- The destructor `var::~var` on a heap with lifetimes. -/
def var.dtorOn (v : var) (h : Heap) : Heap :=
  v.cleanUpOn h

/-- The assignment `operator= (const var&)` on a heap with lifetimes, statement by
statement: `type->cleanUp (value)` first, then `type = newValue.type` and
`type->createCopy (value, newValue.value)`. -/
def var.assignOn (v newValue : var) (h : Heap) : var × Heap :=
  newValue.createCopyOn (v.cleanUpOn h)

/-- The assignment `operator= (ReferenceCountedObject*)` on a heap with lifetimes:
`var v (newValue); swapWith (v);` and then the destructor of the temporary `v`. -/
def var.assignObjectOn (v : var) (newValue : ObjectPtr) (h : Heap) : var × Heap :=
  let (tmp, h1) := var.ctorObjectOn newValue h
  let (v1, tmp1) := v.swapWith tmp
  (v1, tmp1.dtorOn h1)

/-- The state that the specification rules out after an assignment: the value holds a
handle that is not null and refers to an object that has been deleted. -/
def var.dangling (v : var) (h : Heap) : Bool :=
  match v with
  | .vObject p => p != 0 && h.deleted p
  | _ => false

/-! ## Lemmas on the machine types and the reference libraries -/

theorem int_ext {a b : int} (h : a.val = b.val) : a = b := by
  cases a; cases b; simp_all

theorem int64_ext {a b : int64} (h : a.val = b.val) : a = b := by
  cases a; cases b; simp_all

theorem int_wrap_val (i : int) : int.wrap i.val = i := by
  apply int_ext
  have := i.inRange
  simp only [int.wrap]
  omega

theorem int64_wrap_val (i : int64) : int64.wrap i.val = i := by
  apply int64_ext
  have := i.inRange
  simp only [int64.wrap]
  omega

theorem byte_ofNat_val (n : Nat) : (Fin.ofNat n : Byte).val = n % 256 := rfl

theorem leBytes_length (k n : Nat) : (leBytes k n).length = k := by
  induction k generalizing n with
  | zero => rfl
  | succ k ih => simp [leBytes, ih]

theorem leValue_leBytes (k n : Nat) : leValue (leBytes k n) = n % 256 ^ k := by
  induction k generalizing n with
  | zero => simp [leBytes, leValue, Nat.mod_one]
  | succ k ih =>
    simp only [leBytes, leValue, ih, byte_ofNat_val]
    rw [Nat.pow_succ, Nat.mul_comm (256 ^ k) 256, Nat.mod_mul, Nat.mod_mod]

theorem readLE_leBytes (k n : Nat) (rest : List Byte) :
    readLE k ⟨leBytes k n ++ rest⟩ = (n % 256 ^ k, ⟨rest⟩) := by
  have hl := leBytes_length k n
  simp only [readLE, List.length_append, hl]
  rw [if_neg (by omega)]
  rw [List.take_left' hl, List.drop_left' hl, leValue_leBytes]

theorem Double.ofBits_toBits (d : Double) : Double.ofBits (d.toBits % 256 ^ 8) = d := by
  obtain ⟨s, ⟨e, he⟩, ⟨m, hm⟩⟩ := d
  have h1 : (Double.toBits ⟨s, ⟨e, he⟩, ⟨m, hm⟩⟩) % 256 ^ 8
      = (if s = true then 9223372036854775808 else 0) + e * 4503599627370496 + m := by
    apply Nat.mod_eq_of_lt
    simp only [Double.toBits]
    split <;> norm_num <;> omega
  simp only [h1, Double.ofBits, Double.mk.injEq]
  refine ⟨?_, ?_, ?_⟩
  · cases s <;> simp <;> omega
  · apply Fin.ext
    show _ % 2048 % 2048 = e
    cases s <;> simp <;> omega
  · apply Fin.ext
    show _ % 4503599627370496 % 4503599627370496 = m
    cases s <;> simp <;> omega

theorem leBytesMin_length_le (k n : Nat) : (leBytesMin k n).length ≤ k := by
  induction k generalizing n with
  | zero => simp [leBytesMin]
  | succ k ih =>
    simp only [leBytesMin]
    split
    · simp
    · have := ih (n / 256)
      simp only [List.length_cons]
      omega

theorem leValue_leBytesMin (k n : Nat) (h : n < 256 ^ k) : leValue (leBytesMin k n) = n := by
  induction k generalizing n with
  | zero =>
    have : n = 0 := by simpa using h
    simp [leBytesMin, leValue, this]
  | succ k ih =>
    simp only [leBytesMin]
    split
    · simp_all [leValue]
    · have h2 : n / 256 < 256 ^ k := by
        rw [Nat.div_lt_iff_lt_mul (by decide)]
        rw [Nat.pow_succ] at h
        exact h
      simp only [leValue, ih _ h2, byte_ofNat_val]
      omega

theorem leBytesMin_length_pos (k n : Nat) (h : n ≠ 0) : 0 < (leBytesMin (k + 1) n).length := by
  simp [leBytesMin, h]

theorem readCompressedInt_compressedIntBytes (n : int) (rest : List Byte) (h : 0 ≤ n.val) :
    readCompressedInt ⟨compressedIntBytes n ++ rest⟩ = (n, ⟨rest⟩) := by
  have hr := n.inRange
  have hlt : n.val.natAbs < 256 ^ 4 := by norm_num; omega
  have hlen := leBytesMin_length_le 4 n.val.natAbs
  have hval := leValue_leBytesMin 4 n.val.natAbs hlt
  by_cases h0 : n.val.natAbs = 0
  · have hn : n.val = 0 := by omega
    have hz : (0 : int) = n := int_ext (by rw [hn]; rfl)
    simp [readCompressedInt, compressedIntBytes, h0, leBytesMin, InputStream.readByte,
      byte_ofNat_val, hn, hz]
  · have hpos : 0 < (leBytesMin 4 n.val.natAbs).length := leBytesMin_length_pos 3 _ h0
    have hneg : ¬ n.val < 0 := by omega
    simp only [readCompressedInt, compressedIntBytes, InputStream.readByte, List.cons_append,
      byte_ofNat_val, if_neg hneg, Nat.add_zero]
    have e1 : (leBytesMin 4 n.val.natAbs).length % 256 = (leBytesMin 4 n.val.natAbs).length := by
      omega
    rw [e1]
    rw [if_neg (by omega)]
    have e2 : (leBytesMin 4 n.val.natAbs).length % 128 = (leBytesMin 4 n.val.natAbs).length := by
      omega
    simp only [e2]
    rw [if_neg (by omega), if_neg (by simp), if_neg (by omega)]
    rw [List.take_left, List.drop_left, hval]
    rw [Prod.mk.injEq]
    refine ⟨?_, rfl⟩
    apply int_ext
    simp only [int.wrap]
    omega

theorem readInt_intBytes (i : int) (rest : List Byte) :
    refStreams.readInt ⟨refStreams.intBytes i ++ rest⟩ = (i, ⟨rest⟩) := by
  have hr := i.inRange
  show (int.wrap (readLE 4 ⟨leBytes 4 _ ++ rest⟩).1, (readLE 4 ⟨leBytes 4 _ ++ rest⟩).2) = _
  rw [readLE_leBytes]
  rw [Prod.mk.injEq]
  refine ⟨?_, rfl⟩
  apply int_ext
  show ((((i.val % 4294967296).toNat % 256 ^ 4 : Nat) : Int) + 2147483648) % 4294967296
    - 2147483648 = i.val
  have : (256 : Nat) ^ 4 = 4294967296 := by norm_num
  rw [this]
  omega

theorem readInt64_int64Bytes (i : int64) (rest : List Byte) :
    refStreams.readInt64 ⟨refStreams.int64Bytes i ++ rest⟩ = (i, ⟨rest⟩) := by
  have hr := i.inRange
  show (int64.wrap (readLE 8 ⟨leBytes 8 _ ++ rest⟩).1, (readLE 8 ⟨leBytes 8 _ ++ rest⟩).2) = _
  rw [readLE_leBytes]
  rw [Prod.mk.injEq]
  refine ⟨?_, rfl⟩
  apply int64_ext
  show ((((i.val % 18446744073709551616).toNat % 256 ^ 8 : Nat) : Int) + 9223372036854775808)
    % 18446744073709551616 - 9223372036854775808 = i.val
  have : (256 : Nat) ^ 8 = 18446744073709551616 := by norm_num
  rw [this]
  omega

theorem readDouble_doubleBytes (d : Double) (rest : List Byte) :
    refStreams.readDouble ⟨refStreams.doubleBytes d ++ rest⟩ = (d, ⟨rest⟩) := by
  show (Double.ofBits (readLE 8 ⟨leBytes 8 _ ++ rest⟩).1, (readLE 8 ⟨leBytes 8 _ ++ rest⟩).2) = _
  rw [readLE_leBytes, Double.ofBits_toBits]

theorem refStreams_lawful : refStreams.Lawful where
  readCompressedInt_bytes := readCompressedInt_compressedIntBytes
  readInt_bytes := readInt_intBytes
  readInt64_bytes := readInt64_int64Bytes
  readDouble_bytes := readDouble_doubleBytes

theorem refStreams_fixedWidth : refStreams.FixedWidth where
  intBytes_length := fun _ => leBytes_length _ _
  int64Bytes_length := fun _ => leBytes_length _ _
  doubleBytes_length := fun _ => leBytes_length _ _

theorem char_toNat_lt (c : Char) : c.toNat < 1114112 := by
  have h := c.valid
  simp only [Char.toNat]
  rcases h with h | h <;> omega

theorem char_toNat_ne_zero (c : Char) (h : c ≠ Char.ofNat 0) : c.toNat ≠ 0 := by
  intro h0
  apply h
  rw [← Char.ofNat_toNat c, h0]

theorem utf8Decode_cons (b : Byte) (rest : List Byte) :
    utf8Decode (b :: rest) =
      if b.val = 0 then []
      else if b.val < 128 then Char.ofNat b.val :: utf8Decode rest
      else if b.val < 224 then
        match rest with
        | b1 :: rest1 => Char.ofNat (b.val % 32 * 64 + b1.val % 64) :: utf8Decode rest1
        | _ => []
      else if b.val < 240 then
        match rest with
        | b1 :: b2 :: rest2 =>
            Char.ofNat (b.val % 16 * 4096 + b1.val % 64 * 64 + b2.val % 64) :: utf8Decode rest2
        | _ => []
      else
        match rest with
        | b1 :: b2 :: b3 :: rest3 =>
            Char.ofNat (b.val % 8 * 262144 + b1.val % 64 * 4096 + b2.val % 64 * 64 + b3.val % 64)
              :: utf8Decode rest3
        | _ => [] := by
  rcases rest with _ | ⟨b1, _ | ⟨b2, _ | ⟨b3, rest3⟩⟩⟩ <;> rfl

theorem utf8Decode_encodeChar (c : Char) (h : c ≠ Char.ofNat 0) (rest : List Byte) :
    utf8Decode (utf8EncodeChar c ++ rest) = c :: utf8Decode rest := by
  have hlt := char_toNat_lt c
  have hne := char_toNat_ne_zero c h
  have hc := Char.ofNat_toNat c
  simp only [utf8EncodeChar]
  generalize c.toNat = n at *
  by_cases h1 : n < 128
  · have e : n % 256 = n := by omega
    simp only [if_pos h1, List.cons_append, List.nil_append]
    rw [utf8Decode_cons]
    simp only [byte_ofNat_val, e, if_neg hne, if_pos h1, hc]
  · by_cases h2 : n < 2048
    · have a0 : (192 + n / 64) % 256 = 192 + n / 64 := by omega
      have a1 : (128 + n % 64) % 256 = 128 + n % 64 := by omega
      have v : (192 + n / 64) % 32 * 64 + (128 + n % 64) % 64 = n := by omega
      simp only [if_neg h1, if_pos h2, List.cons_append, List.nil_append]
      rw [utf8Decode_cons]
      simp only [byte_ofNat_val, a0, a1, v, hc]
      rw [if_neg (by omega), if_neg (by omega), if_pos (by omega)]
    · by_cases h3 : n < 65536
      · have a0 : (224 + n / 4096) % 256 = 224 + n / 4096 := by omega
        have a1 : (128 + n / 64 % 64) % 256 = 128 + n / 64 % 64 := by omega
        have a2 : (128 + n % 64) % 256 = 128 + n % 64 := by omega
        have v : (224 + n / 4096) % 16 * 4096 + (128 + n / 64 % 64) % 64 * 64
            + (128 + n % 64) % 64 = n := by omega
        simp only [if_neg h1, if_neg h2, if_pos h3, List.cons_append, List.nil_append]
        rw [utf8Decode_cons]
        simp only [byte_ofNat_val, a0, a1, a2, v, hc]
        rw [if_neg (by omega), if_neg (by omega), if_neg (by omega), if_pos (by omega)]
      · have a0 : (240 + n / 262144) % 256 = 240 + n / 262144 := by omega
        have a1 : (128 + n / 4096 % 64) % 256 = 128 + n / 4096 % 64 := by omega
        have a2 : (128 + n / 64 % 64) % 256 = 128 + n / 64 % 64 := by omega
        have a3 : (128 + n % 64) % 256 = 128 + n % 64 := by omega
        have v : (240 + n / 262144) % 8 * 262144 + (128 + n / 4096 % 64) % 64 * 4096
            + (128 + n / 64 % 64) % 64 * 64 + (128 + n % 64) % 64 = n := by omega
        simp only [if_neg h1, if_neg h2, if_neg h3, List.cons_append, List.nil_append]
        rw [utf8Decode_cons]
        simp only [byte_ofNat_val, a0, a1, a2, a3, v, hc]
        rw [if_neg (by omega), if_neg (by omega), if_neg (by omega), if_neg (by omega)]

theorem utf8Decode_encode (cs : List Char) (h : ∀ c ∈ cs, c ≠ Char.ofNat 0)
    (rest : List Byte) : utf8Decode (utf8Encode cs ++ 0 :: rest) = cs := by
  induction cs with
  | nil =>
    show utf8Decode (0 :: rest) = []
    rw [utf8Decode_cons]
    rfl
  | cons c cs ih =>
    simp only [utf8Encode, List.append_assoc]
    rw [utf8Decode_encodeChar c (h c (List.mem_cons_self _ _))]
    rw [ih (fun c1 h1 => h c1 (List.mem_cons_of_mem _ h1))]

theorem refStrings_lawful : refStrings.Lawful where
  fromUTF8_copyToUTF8 := by
    intro s hs
    show String.mk (utf8Decode (utf8Encode s.data ++ [0])) = s
    rw [utf8Decode_encode s.data hs]

/-! ## Lemmas on the stream format -/

theorem Double.eq_self (d : Double) (h : d.isNaN = false) : d.eq d = true := by
  simp [Double.eq, h]

theorem Double.eq_comm (a b : Double) : a.eq b = b.eq a := by
  simp only [Double.eq]
  have h : decide (a = b) = decide (b = a) := by
    by_cases hab : a = b
    · simp [hab]
    · have hba : ¬ b = a := fun h => hab h.symm
      simp [hab, hba]
  rw [h]
  cases a.isNaN <;> cases b.isNaN <;> cases a.isZero <;> cases b.isZero <;> simp

theorem readFromStream_of_nonpos (sl : StringLib) (st : StreamLib) (input input1 : InputStream)
    (n : int) (h : st.readCompressedInt input = (n, input1)) (hn : n.val ≤ 0) :
    var.readFromStream sl st input = (var.null, input1) := by
  unfold var.readFromStream
  rw [h]
  simp only []
  rw [if_neg (by omega)]

theorem readFromStream_of_marker (sl : StringLib) (st : StreamLib) (input : InputStream)
    (n : int) (m : Byte) (rest : List Byte)
    (h : st.readCompressedInt input = (n, ⟨m :: rest⟩)) (hn : 0 < n.val) :
    var.readFromStream sl st input =
      if m = varMarker_Int then (.vInt (st.readInt ⟨rest⟩).1, (st.readInt ⟨rest⟩).2)
      else if m = varMarker_Int64 then (.vInt64 (st.readInt64 ⟨rest⟩).1, (st.readInt64 ⟨rest⟩).2)
      else if m = varMarker_BoolTrue then (.vBool true, ⟨rest⟩)
      else if m = varMarker_BoolFalse then (.vBool false, ⟨rest⟩)
      else if m = varMarker_Double then
        (.vDouble (st.readDouble ⟨rest⟩).1, (st.readDouble ⟨rest⟩).2)
      else if m = varMarker_String then
        (.vString (sl.fromUTF8 (rest.take (n.val - 1).toNat)), ⟨rest.drop (n.val - 1).toNat⟩)
      else (var.null, ⟨rest.drop (n.val - 1).toNat⟩) := by
  unfold var.readFromStream
  rw [h]
  simp only [InputStream.readByte, InputStream.readIntoMemoryBlock, InputStream.skipNextBytes]
  rw [if_pos hn]

theorem writeToStream_int (sl : StringLib) (st : StreamLib) (i : int) (output : OutputStream) :
    (var.writeToStream sl st (.vInt i) output).written
      = output.written ++ (st.compressedIntBytes 5 ++ varMarker_Int :: st.intBytes i) := by
  simp [var.writeToStream, OutputStream.writeCompressedInt, OutputStream.writeByte,
    OutputStream.writeInt]

theorem writeToStream_int64 (sl : StringLib) (st : StreamLib) (i : int64)
    (output : OutputStream) :
    (var.writeToStream sl st (.vInt64 i) output).written
      = output.written ++ (st.compressedIntBytes 9 ++ varMarker_Int64 :: st.int64Bytes i) := by
  simp [var.writeToStream, OutputStream.writeCompressedInt, OutputStream.writeByte,
    OutputStream.writeInt64]

theorem writeToStream_double (sl : StringLib) (st : StreamLib) (d : Double)
    (output : OutputStream) :
    (var.writeToStream sl st (.vDouble d) output).written
      = output.written ++ (st.compressedIntBytes 9 ++ varMarker_Double :: st.doubleBytes d) := by
  simp [var.writeToStream, OutputStream.writeCompressedInt, OutputStream.writeByte,
    OutputStream.writeDouble]

theorem writeToStream_bool (sl : StringLib) (st : StreamLib) (b : Bool)
    (output : OutputStream) :
    (var.writeToStream sl st (.vBool b) output).written
      = output.written ++ (st.compressedIntBytes 1
          ++ [if b then varMarker_BoolTrue else varMarker_BoolFalse]) := by
  simp [var.writeToStream, OutputStream.writeCompressedInt, OutputStream.writeByte]

theorem readFromStream_int (sl : StringLib) (st : StreamLib) (hst : st.Lawful) (i : int)
    (rest : List Byte) :
    var.readFromStream sl st ⟨(var.writeToStream sl st (.vInt i) ⟨[]⟩).written ++ rest⟩
      = (.vInt i, ⟨rest⟩) := by
  rw [writeToStream_int, List.nil_append, List.append_assoc, List.cons_append]
  rw [readFromStream_of_marker sl st _ 5 varMarker_Int (st.intBytes i ++ rest)
    (hst.readCompressedInt_bytes 5 _ (by decide)) (by decide)]
  rw [if_pos rfl, hst.readInt_bytes]

theorem readFromStream_int64 (sl : StringLib) (st : StreamLib) (hst : st.Lawful) (i : int64)
    (rest : List Byte) :
    var.readFromStream sl st ⟨(var.writeToStream sl st (.vInt64 i) ⟨[]⟩).written ++ rest⟩
      = (.vInt64 i, ⟨rest⟩) := by
  rw [writeToStream_int64, List.nil_append, List.append_assoc, List.cons_append]
  rw [readFromStream_of_marker sl st _ 9 varMarker_Int64 (st.int64Bytes i ++ rest)
    (hst.readCompressedInt_bytes 9 _ (by decide)) (by decide)]
  rw [if_neg (by decide), if_pos rfl, hst.readInt64_bytes]

theorem readFromStream_double (sl : StringLib) (st : StreamLib) (hst : st.Lawful) (d : Double)
    (rest : List Byte) :
    var.readFromStream sl st ⟨(var.writeToStream sl st (.vDouble d) ⟨[]⟩).written ++ rest⟩
      = (.vDouble d, ⟨rest⟩) := by
  rw [writeToStream_double, List.nil_append, List.append_assoc, List.cons_append]
  rw [readFromStream_of_marker sl st _ 9 varMarker_Double (st.doubleBytes d ++ rest)
    (hst.readCompressedInt_bytes 9 _ (by decide)) (by decide)]
  rw [if_neg (by decide), if_neg (by decide), if_neg (by decide), if_neg (by decide),
    if_pos rfl, hst.readDouble_bytes]

theorem readFromStream_bool (sl : StringLib) (st : StreamLib) (hst : st.Lawful) (b : Bool)
    (rest : List Byte) :
    var.readFromStream sl st ⟨(var.writeToStream sl st (.vBool b) ⟨[]⟩).written ++ rest⟩
      = (.vBool b, ⟨rest⟩) := by
  rw [writeToStream_bool, List.nil_append, List.append_assoc, List.singleton_append]
  rw [readFromStream_of_marker sl st _ 1 _ rest
    (hst.readCompressedInt_bytes 1 _ (by decide)) (by decide)]
  cases b
  · rw [if_neg (by decide), if_neg (by decide), if_neg (by decide), if_pos (by decide)]
  · rw [if_neg (by decide), if_neg (by decide), if_pos (by decide)]

theorem int.wrap_of_inRange (x : Int) (h : -2147483648 ≤ x ∧ x ≤ 2147483647) :
    (int.wrap x).val = x := by
  simp only [int.wrap]
  omega

theorem writeToStream_string (sl : StringLib) (st : StreamLib) (s : String)
    (output : OutputStream) (hlen : (sl.toUTF8 s).length + 2 ≤ 2147483647) :
    (var.writeToStream sl st (.vString s) output).written
      = output.written ++ (st.compressedIntBytes (int.wrap (((sl.toUTF8 s).length + 2 : Nat) : Int))
          ++ varMarker_String :: (sl.toUTF8 s ++ [0])) := by
  have h1 : (sl.getNumBytesAsUTF8 s).val = ((sl.toUTF8 s).length : Int) := by
    rw [StringLib.getNumBytesAsUTF8, int.wrap_of_inRange]
    omega
  have h2 : (int.wrap ((sl.getNumBytesAsUTF8 s).val + 1)).val = ((sl.toUTF8 s).length : Int) + 1 := by
    rw [h1, int.wrap_of_inRange]
    omega
  have h3 : (((sl.toUTF8 s).length : Int) + 1).toNat = (sl.toUTF8 s ++ [0]).length := by
    simp only [List.length_append, List.length_singleton]
    omega
  simp only [var.writeToStream, OutputStream.writeCompressedInt, OutputStream.writeByte,
    OutputStream.write, StringLib.copyToUTF8, h2, h3, List.take_length, List.append_assoc,
    List.singleton_append]
  have h4 : ((sl.toUTF8 s).length : Int) + 1 + 1 = (((sl.toUTF8 s).length + 2 : Nat) : Int) := by
    omega
  rw [h4]

theorem readFromStream_string (sl : StringLib) (st : StreamLib) (hsl : sl.Lawful)
    (hst : st.Lawful) (s : String) (hs : noNul s)
    (hlen : (sl.toUTF8 s).length + 2 ≤ 2147483647) (rest : List Byte) :
    var.readFromStream sl st ⟨(var.writeToStream sl st (.vString s) ⟨[]⟩).written ++ rest⟩
      = (.vString s, ⟨rest⟩) := by
  have hv : (int.wrap (((sl.toUTF8 s).length + 2 : Nat) : Int)).val
      = (((sl.toUTF8 s).length + 2 : Nat) : Int) := by
    rw [int.wrap_of_inRange]
    omega
  rw [writeToStream_string sl st s _ hlen, List.nil_append, List.append_assoc,
    List.cons_append]
  rw [readFromStream_of_marker sl st _ _ varMarker_String ((sl.toUTF8 s ++ [0]) ++ rest)
    (hst.readCompressedInt_bytes _ _ (by rw [hv]; omega)) (by rw [hv]; omega)]
  rw [if_neg (by decide), if_neg (by decide), if_neg (by decide), if_neg (by decide),
    if_neg (by decide), if_pos rfl, hv]
  have h3 : ((((sl.toUTF8 s).length + 2 : Nat) : Int) - 1).toNat = (sl.toUTF8 s ++ [0]).length := by
    simp only [List.length_append, List.length_singleton]
    omega
  rw [h3, List.take_left, List.drop_left]
  have := hsl.fromUTF8_copyToUTF8 s hs
  rw [StringLib.copyToUTF8] at this
  rw [this]

theorem utf8Encode_replicate_a (n : Nat) :
    utf8Encode (List.replicate n 'a') = List.replicate n (97 : Byte) := by
  induction n with
  | zero => rfl
  | succ n ih =>
    rw [List.replicate_succ, utf8Encode, ih, List.replicate_succ]
    rfl

theorem toUTF8_hugeText : refStrings.toUTF8 hugeText = List.replicate 2147483646 (97 : Byte) :=
  utf8Encode_replicate_a 2147483646

theorem noNul_hugeText : noNul hugeText := by
  intro c hc
  have h : c = 'a' := List.eq_of_mem_replicate hc
  rw [h]
  decide

theorem readCompressedInt_minInt (rest : List Byte) :
    readCompressedInt ⟨compressedIntBytes (int.wrap (-2147483648)) ++ rest⟩
      = (int.wrap (-2147483648), ⟨rest⟩) := by
  have e : compressedIntBytes (int.wrap (-2147483648)) = [132, 0, 0, 0, 128] := by decide
  have e1 : ((132 : Byte) : Nat) = 132 := rfl
  have e2 : int.wrap (-(int.wrap (leValue [0, 0, 0, 128])).val) = int.wrap (-2147483648) := by
    decide
  rw [e]
  simp only [readCompressedInt, InputStream.readByte, List.cons_append, List.nil_append, e1]
  rw [if_neg (by decide), if_neg (by decide), if_neg (by simp)]
  simp only [List.take, List.drop]
  rw [if_pos (by decide), e2]

theorem writeToStream_hugeText :
    (var.writeToStream refStrings refStreams (.vString hugeText) ⟨[]⟩).written
      = compressedIntBytes (int.wrap (-2147483648))
          ++ varMarker_String :: (List.replicate 2147483646 (97 : Byte) ++ [0]) := by
  have e1 : int.wrap ((int.wrap ((int.wrap ((2147483646 : Nat) : Int)).val + 1)).val + 1)
      = int.wrap (-2147483648) := by decide
  have e2 : (int.wrap ((int.wrap ((2147483646 : Nat) : Int)).val + 1)).val.toNat
      = 2147483647 := by decide
  have e3 : (List.replicate 2147483646 (97 : Byte) ++ [0]).length = 2147483647 := by
    rw [List.length_append, List.length_replicate]
    rfl
  have e4 : List.take 2147483647 (List.replicate 2147483646 (97 : Byte) ++ [0])
      = List.replicate 2147483646 (97 : Byte) ++ [0] :=
    List.take_of_length_le (Nat.le_of_eq e3)
  simp only [var.writeToStream, OutputStream.writeCompressedInt, OutputStream.writeByte,
    OutputStream.write, StringLib.copyToUTF8, StringLib.getNumBytesAsUTF8, toUTF8_hugeText,
    List.length_replicate, e1, e2, e4, List.nil_append, List.append_assoc,
    List.singleton_append]
  simp only [refStreams]

theorem toUTF8_hugeText_length : (refStrings.toUTF8 hugeText).length = 2147483646 := by
  rw [toUTF8_hugeText, List.length_replicate]

theorem specLengthField_string (sl : StringLib) (s : String) :
    specLengthField sl (var.vString s) = (sl.toUTF8 s).length + 1 + 1 := rfl

theorem specLengthField_hugeText :
    specLengthField refStrings (var.vString hugeText) = 2147483648 := by
  rw [specLengthField_string, toUTF8_hugeText_length]

/-! ## Lemmas on the comparisons -/

theorem refStrings_decimalFive : refStrings.DecimalFive where
  ofInt_five := by decide
  ofInt64_five := by decide
  ofDouble_five := by decide
  getIntValue_five := by decide
  getLargeIntValue_five := by decide
  getDoubleValue_five := by decide

theorem Double.zero_eq (d : Double) : Double.zero.eq d = d.isZero := by
  obtain ⟨s, ⟨e, he⟩, ⟨m, hm⟩⟩ := d
  by_cases hz : e = 0 ∧ m = 0
  · obtain ⟨rfl, rfl⟩ := hz
    simp [Double.eq, Double.isNaN, Double.isZero, Double.zero]
  · have hne : ¬ (Double.zero = (⟨s, ⟨e, he⟩, ⟨m, hm⟩⟩ : Double)) := by
      intro h
      apply hz
      simp only [Double.zero, Double.mk.injEq] at h
      obtain ⟨_, h2, h3⟩ := h
      have h2 := congrArg Fin.val h2
      have h3 := congrArg Fin.val h3
      simp at h2 h3
      omega
    have hzf : Double.isZero ⟨s, ⟨e, he⟩, ⟨m, hm⟩⟩ = false := by
      simp only [Double.isZero]
      by_cases h0 : e = 0
      · have : m ≠ 0 := fun h => hz ⟨h0, h⟩
        simp [h0, this]
      · simp [h0]
    simp [Double.eq, hzf, hne]

/-! ## Lemmas on programs -/

theorem get?_set_list {α : Type} (l : List α) (i k : Nat) (x : α) :
    (l.set i x).get? k = if k = i then (l.get? k).map (fun _ => x) else l.get? k := by
  induction l generalizing i k with
  | nil => simp
  | cons a l ih =>
    cases i with
    | zero =>
      cases k with
      | zero => simp
      | succ k => simp
    | succ i =>
      cases k with
      | zero => simp
      | succ k => simpa using ih i k

theorem get?_set_same {α : Type} (l : List α) (i : Nat) (x a : α)
    (h : l.get? i = some a) : (l.set i x).get? i = some x := by
  rw [get?_set_list, if_pos rfl, h]
  rfl

theorem get?_set_other {α : Type} (l : List α) (i k : Nat) (x : α) (h : k ≠ i) :
    (l.set i x).get? k = l.get? k := by
  rw [get?_set_list, if_neg h]

theorem exec_swap (s : Store) (i j : Nat) (a b : var) (hi : s.vars.get? i = some a)
    (hj : s.vars.get? j = some b) :
    Step.exec s (Step.swap i j) = ⟨(s.vars.set i b).set j a, s.refs⟩ := by
  simp only [Step.exec, hi, hj, var.swapWith]

/-- The counts of the heap with lifetimes after `cleanUp` are the counts that `cleanUp`
gives without the lifetimes. -/
theorem cleanUpOn_refCount (v : var) (h : Heap) :
    (v.cleanUpOn h).refCount = v.cleanUp h.refCount := by
  cases v
  case vObject p =>
    by_cases hp : p = 0
    · simp [var.cleanUpOn, var.cleanUp, hp]
    · simp [var.cleanUpOn, var.cleanUp, hp, Heap.decReferenceCount]
  all_goals rfl

/-- The value and the counts of the heap with lifetimes after `createCopy` are those that
`createCopy` gives without the lifetimes, and no object is deleted by a copy. -/
theorem createCopyOn_refCount (v : var) (h : Heap) :
    (v.createCopyOn h).1 = (v.createCopy h.refCount).1
      ∧ (v.createCopyOn h).2.refCount = (v.createCopy h.refCount).2
      ∧ (v.createCopyOn h).2.deleted = h.deleted := by
  cases v
  case vObject p =>
    by_cases hp : p = 0
    · simp [var.createCopyOn, var.createCopy, hp]
    · simp [var.createCopyOn, var.createCopy, hp, Heap.incReferenceCount]
  all_goals exact ⟨rfl, rfl, rfl⟩

/-- The value and the counts after `operator= (const var&)` on the heap with lifetimes
are those of `operator= (const var&)` without the lifetimes. -/
theorem assignOn_refCount (v newValue : var) (h : Heap) :
    (v.assignOn newValue h).1 = (v.assign newValue h.refCount).1
      ∧ (v.assignOn newValue h).2.refCount = (v.assign newValue h.refCount).2 := by
  have hc := createCopyOn_refCount newValue (v.cleanUpOn h)
  rw [cleanUpOn_refCount] at hc
  exact ⟨hc.1, hc.2.1⟩

theorem equals_self (sl : StringLib) (v : var)
    (hnan : ∀ d : Double, v = .vDouble d → d.isNaN = false) : v.equals sl v = true := by
  cases v
  case vDouble d => simp [var.equals, var.toDouble, Double.eq_self d (hnan d rfl)]
  case vVoid => rfl
  case vInt i => simp [var.equals, var.toInt]
  case vInt64 i => simp [var.equals, var.toInt64]
  case vBool b => simp [var.equals, var.toBool]
  case vString s => simp [var.equals, var.toString]
  case vObject p => simp [var.equals, var.getObject]
  case vMethod m => simp [var.equals, var.isMethod, var.type, VariantType.isMethod]

theorem readFromStream_string_decoded (sl : StringLib) (st : StreamLib) (hst : st.Lawful)
    (s : String) (hlen : (sl.toUTF8 s).length + 2 ≤ 2147483647) (rest : List Byte) :
    var.readFromStream sl st ⟨(var.writeToStream sl st (.vString s) ⟨[]⟩).written ++ rest⟩
      = (.vString (sl.fromUTF8 (sl.copyToUTF8 s)), ⟨rest⟩) := by
  have hv : (int.wrap (((sl.toUTF8 s).length + 2 : Nat) : Int)).val
      = (((sl.toUTF8 s).length + 2 : Nat) : Int) := by
    rw [int.wrap_of_inRange]
    omega
  rw [writeToStream_string sl st s _ hlen, List.nil_append, List.append_assoc,
    List.cons_append]
  rw [readFromStream_of_marker sl st _ _ varMarker_String ((sl.toUTF8 s ++ [0]) ++ rest)
    (hst.readCompressedInt_bytes _ _ (by rw [hv]; omega)) (by rw [hv]; omega)]
  rw [if_neg (by decide), if_neg (by decide), if_neg (by decide), if_neg (by decide),
    if_neg (by decide), if_pos rfl, hv]
  have h3 : ((((sl.toUTF8 s).length + 2 : Nat) : Int) - 1).toNat
      = (sl.toUTF8 s ++ [0]).length := by
    simp only [List.length_append, List.length_singleton]
    omega
  rw [h3, List.take_left, List.drop_left]
  rfl

theorem readFromStream_void (sl : StringLib) (st : StreamLib) (hst : st.Lawful)
    (rest : List Byte) :
    var.readFromStream sl st ⟨(var.writeToStream sl st .vVoid ⟨[]⟩).written ++ rest⟩
      = (.vVoid, ⟨rest⟩) := by
  show var.readFromStream sl st ⟨([] ++ st.compressedIntBytes 0) ++ rest⟩ = _
  rw [List.nil_append]
  exact readFromStream_of_nonpos sl st _ _ 0 (hst.readCompressedInt_bytes 0 rest (by decide))
    (by decide)

theorem readFromStream_decoded (sl : StringLib) (st : StreamLib) (hst : st.Lawful) (v : var)
    (hv : v.streamable sl) (rest : List Byte) :
    var.readFromStream sl st ⟨(v.writeToStream sl st ⟨[]⟩).written ++ rest⟩
      = (v.decoded sl, ⟨rest⟩) := by
  cases v
  case vVoid => exact readFromStream_void sl st hst rest
  case vInt i => exact readFromStream_int sl st hst i rest
  case vInt64 i => exact readFromStream_int64 sl st hst i rest
  case vBool b => exact readFromStream_bool sl st hst b rest
  case vDouble d => exact readFromStream_double sl st hst d rest
  case vString s => exact readFromStream_string_decoded sl st hst s hv rest
  case vObject p => exact absurd hv (by simp [var.streamable])
  case vMethod m => exact absurd hv (by simp [var.streamable])

theorem writeToStream_append (sl : StringLib) (st : StreamLib) (v : var)
    (output : OutputStream) :
    (v.writeToStream sl st output).written
      = output.written ++ (v.writeToStream sl st ⟨[]⟩).written := by
  cases v <;> simp [var.writeToStream, OutputStream.writeCompressedInt,
    OutputStream.writeByte, OutputStream.writeInt, OutputStream.writeInt64,
    OutputStream.writeDouble, OutputStream.write]

theorem writeAll_append (sl : StringLib) (st : StreamLib) (vs : List var)
    (output : OutputStream) :
    (var.writeAll sl st vs output).written
      = output.written ++ (var.writeAll sl st vs ⟨[]⟩).written := by
  induction vs generalizing output with
  | nil => simp [var.writeAll]
  | cons v vs ih =>
    simp only [var.writeAll]
    rw [ih (v.writeToStream sl st output), ih (v.writeToStream sl st ⟨[]⟩),
      writeToStream_append sl st v output, List.append_assoc]

theorem readMany_writeAll (sl : StringLib) (st : StreamLib) (hst : st.Lawful)
    (vs : List var) (hvs : ∀ v ∈ vs, v.streamable sl) (rest : List Byte) :
    var.readMany sl st vs.length ⟨(var.writeAll sl st vs ⟨[]⟩).written ++ rest⟩
      = (vs.map (var.decoded sl), ⟨rest⟩) := by
  induction vs with
  | nil => simp [var.readMany, var.writeAll]
  | cons v vs ih =>
    have hv := hvs v (List.mem_cons_self _ _)
    have ih2 := ih (fun w hw => hvs w (List.mem_cons_of_mem _ hw))
    simp only [var.writeAll, List.length_cons, var.readMany, List.map_cons]
    rw [writeAll_append, List.append_assoc, readFromStream_decoded sl st hst v hv, ih2]

/-! ## Lemmas on the kind of the value read -/

theorem readFromStream_of_byte (sl : StringLib) (st : StreamLib) (input input1 input2 : InputStream)
    (n : int) (m : Byte) (h : st.readCompressedInt input = (n, input1))
    (hb : input1.readByte = (m, input2)) (hn : 0 < n.val) :
    var.readFromStream sl st input =
      if m = varMarker_Int then (.vInt (st.readInt input2).1, (st.readInt input2).2)
      else if m = varMarker_Int64 then (.vInt64 (st.readInt64 input2).1, (st.readInt64 input2).2)
      else if m = varMarker_BoolTrue then (.vBool true, input2)
      else if m = varMarker_BoolFalse then (.vBool false, input2)
      else if m = varMarker_Double then
        (.vDouble (st.readDouble input2).1, (st.readDouble input2).2)
      else if m = varMarker_String then
        (.vString (sl.fromUTF8 (input2.readIntoMemoryBlock (n.val - 1)).1),
          (input2.readIntoMemoryBlock (n.val - 1)).2)
      else (var.null, input2.skipNextBytes (n.val - 1)) := by
  unfold var.readFromStream
  rw [h]
  simp only []
  rw [hb, if_pos hn]

/-! ## The claims -/

/-- C1: for a value `v` of kind Int, Int64, Bool or Double whose double is not NaN, and
number encodings that the stream inverts, `readFromStream` on the bytes written by
`v.writeToStream` (whatever follows them) returns a value of the same kind that
`v.equals` accepts. -/
theorem readFromStream_writeToStream_numeric (sl : StringLib) (st : StreamLib)
    (hst : st.Lawful) (v : var)
    (hkind : v.isInt = true ∨ v.isInt64 = true ∨ v.isBool = true ∨ v.isDouble = true)
    (hnan : ∀ d : Double, v = .vDouble d → d.isNaN = false) (rest : List Byte) :
    (var.readFromStream sl st ⟨(v.writeToStream sl st ⟨[]⟩).written ++ rest⟩).1.type = v.type
      ∧ v.equals sl
          (var.readFromStream sl st ⟨(v.writeToStream sl st ⟨[]⟩).written ++ rest⟩).1 = true := by
  cases v with
  | vInt i => rw [readFromStream_int sl st hst]; simp [var.equals, var.toInt]
  | vInt64 i => rw [readFromStream_int64 sl st hst]; simp [var.equals, var.toInt64]
  | vBool b => rw [readFromStream_bool sl st hst]; simp [var.equals, var.toBool]
  | vDouble d =>
    rw [readFromStream_double sl st hst]
    simp [var.equals, var.toDouble, Double.eq_self d (hnan d rfl)]
  | vVoid => simp [var.isInt, var.isInt64, var.isBool, var.isDouble, var.type, VariantType.isInt,
      VariantType.isInt64, VariantType.isBool, VariantType.isDouble] at hkind
  | vString s => simp [var.isInt, var.isInt64, var.isBool, var.isDouble, var.type,
      VariantType.isInt, VariantType.isInt64, VariantType.isBool, VariantType.isDouble] at hkind
  | vObject p => simp [var.isInt, var.isInt64, var.isBool, var.isDouble, var.type,
      VariantType.isInt, VariantType.isInt64, VariantType.isBool, VariantType.isDouble] at hkind
  | vMethod m => simp [var.isInt, var.isInt64, var.isBool, var.isDouble, var.type,
      VariantType.isInt, VariantType.isInt64, VariantType.isBool, VariantType.isDouble] at hkind

/-- Witness of C1: the smallest `int`, written and read back with the reference
libraries. -/
theorem readFromStream_writeToStream_numeric_witness :
    (var.readFromStream refStrings refStreams
        ⟨((var.vInt (int.wrap (-2147483648))).writeToStream refStrings refStreams ⟨[]⟩).written
          ++ [7]⟩).1.type = (var.vInt (int.wrap (-2147483648))).type
      ∧ (var.vInt (int.wrap (-2147483648))).equals refStrings
          (var.readFromStream refStrings refStreams
            ⟨((var.vInt (int.wrap (-2147483648))).writeToStream refStrings refStreams
              ⟨[]⟩).written ++ [7]⟩).1 = true :=
  readFromStream_writeToStream_numeric refStrings refStreams refStreams_lawful
    (var.vInt (int.wrap (-2147483648))) (Or.inl rfl) (fun _ h => by cases h) [7]

/-- C2, counterexample: the text of 2147483646 letters `a` has no NUL, and what
`readFromStream` returns from the bytes of its `writeToStream` is the void value, which
`equals` rejects: the length `len + 1` that the writer computes in an `int` has wrapped
to a negative number. -/
theorem readFromStream_writeToStream_hugeText :
    noNul hugeText
      ∧ (var.readFromStream refStrings refStreams
          ⟨((var.vString hugeText).writeToStream refStrings refStreams ⟨[]⟩).written⟩).1
            = var.vVoid
      ∧ (var.vString hugeText).equals refStrings
          (var.readFromStream refStrings refStreams
            ⟨((var.vString hugeText).writeToStream refStrings refStreams ⟨[]⟩).written⟩).1
            = false := by
  have hread : (var.readFromStream refStrings refStreams
      ⟨((var.vString hugeText).writeToStream refStrings refStreams ⟨[]⟩).written⟩).1
        = var.vVoid := by
    have h := readFromStream_of_nonpos refStrings refStreams
      ⟨compressedIntBytes (int.wrap (-2147483648))
        ++ varMarker_String :: (List.replicate 2147483646 (97 : Byte) ++ [0])⟩
      ⟨varMarker_String :: (List.replicate 2147483646 (97 : Byte) ++ [0])⟩
      (int.wrap (-2147483648)) (readCompressedInt_minInt _) (by decide)
    rw [writeToStream_hugeText, h]
    rfl
  refine ⟨noNul_hugeText, hread, ?_⟩
  rw [hread]
  have hne : ("" : String) ≠ hugeText := by
    intro h
    have h2 : ("" : String).data = hugeText.data := by rw [h]
    have h3 : hugeText.data = 'a' :: List.replicate 2147483645 'a' :=
      List.replicate_succ 'a' 2147483645
    rw [h3] at h2
    exact List.noConfusion h2
  simp [var.equals, var.toString, hne]

/-- C2, as amended: for a text `s` without NUL whose UTF-8 length plus two fits an
`int`, a text library that decodes what it encodes and number encodings that the stream
inverts, `readFromStream` on the bytes written for the String value of `s` returns the
String value of `s`, which `equals` accepts, and stops right after those bytes. -/
theorem readFromStream_writeToStream_string (sl : StringLib) (st : StreamLib)
    (hsl : sl.Lawful) (hst : st.Lawful) (s : String) (hs : noNul s)
    (hlen : (sl.toUTF8 s).length + 2 ≤ 2147483647) (rest : List Byte) :
    var.readFromStream sl st ⟨((var.vString s).writeToStream sl st ⟨[]⟩).written ++ rest⟩
        = (var.vString s, ⟨rest⟩)
      ∧ (var.vString s).equals sl
          (var.readFromStream sl st
            ⟨((var.vString s).writeToStream sl st ⟨[]⟩).written ++ rest⟩).1 = true := by
  rw [readFromStream_string sl st hsl hst s hs hlen rest]
  simp [var.equals, var.toString]

/-- Witness of C2: a text with characters of one, two, three and four UTF-8 bytes. -/
theorem readFromStream_writeToStream_string_witness :
    var.readFromStream refStrings refStreams
        ⟨((var.vString "aé€😀").writeToStream refStrings refStreams ⟨[]⟩).written ++ [7]⟩
        = (var.vString "aé€😀", ⟨[7]⟩)
      ∧ (var.vString "aé€😀").equals refStrings
          (var.readFromStream refStrings refStreams
            ⟨((var.vString "aé€😀").writeToStream refStrings refStreams ⟨[]⟩).written
              ++ [7]⟩).1 = true :=
  readFromStream_writeToStream_string refStrings refStreams refStrings_lawful
    refStreams_lawful "aé€😀" (by decide) (by decide) [7]

/-- C3, counterexample: for the text of 2147483646 letters `a` the integer passed to
`writeCompressedInt` is `-2147483648`, which is not the number of bytes that follow it:
the marker, the UTF-8 bytes and the terminator are 2147483648 bytes, the length field
of the format table. -/
theorem writeToStream_hugeText_length_field :
    ((var.vString hugeText).writeToStream refStrings refStreams ⟨[]⟩).written
        = refStreams.compressedIntBytes (int.wrap (-2147483648))
            ++ varMarker_String :: (refStrings.toUTF8 hugeText ++ [0])
      ∧ (int.wrap (-2147483648)).val
          ≠ ((varMarker_String :: (refStrings.toUTF8 hugeText ++ [0])).length : Int)
      ∧ (varMarker_String :: (refStrings.toUTF8 hugeText ++ [0])).length = 2147483648
      ∧ specLengthField refStrings (var.vString hugeText) = 2147483648 := by
  have hlen : (varMarker_String :: (refStrings.toUTF8 hugeText ++ [0])).length
      = 2147483648 := by
    rw [List.length_cons, List.length_append, toUTF8_hugeText_length, List.length_singleton]
  refine ⟨?_, ?_, hlen, specLengthField_hugeText⟩
  · rw [writeToStream_hugeText, toUTF8_hugeText]
    simp only [refStreams]
  · rw [hlen]
    decide

/-- C3, as amended: for every value whose text, if it is a String, has a UTF-8 length
that fits an `int` with two to spare, and for number encodings of the widths 4, 8 and
8, `writeToStream` appends the encoding of the length field of the format table and
then exactly that many bytes; the first of them is the marker of the table, and for
Void, Object and Method nothing follows the zero length. -/
theorem writeToStream_length_field (sl : StringLib) (st : StreamLib) (hst : st.FixedWidth)
    (v : var) (output : OutputStream)
    (hsize : ∀ s : String, v = .vString s → (sl.toUTF8 s).length + 2 ≤ 2147483647) :
    ∃ payload : List Byte,
      (v.writeToStream sl st output).written
          = output.written ++ st.compressedIntBytes (int.wrap (specLengthField sl v)) ++ payload
        ∧ (int.wrap (specLengthField sl v)).val = specLengthField sl v
        ∧ payload.length = specLengthField sl v
        ∧ payload.head? = specMarker v := by
  have hfit : (int.wrap (specLengthField sl v)).val = specLengthField sl v := by
    apply int.wrap_of_inRange
    cases v with
    | vString s =>
      have := hsize s rfl
      simp only [specLengthField]
      omega
    | _ => simp [specLengthField]
  suffices h : ∃ payload : List Byte,
      (v.writeToStream sl st output).written
          = output.written ++ st.compressedIntBytes (int.wrap (specLengthField sl v)) ++ payload
        ∧ payload.length = specLengthField sl v
        ∧ payload.head? = specMarker v by
    obtain ⟨payload, h1, h2, h3⟩ := h
    exact ⟨payload, h1, hfit, h2, h3⟩
  cases v with
  | vVoid =>
    refine ⟨[], ?_, rfl, rfl⟩
    simp only [var.writeToStream, OutputStream.writeCompressedInt, List.append_nil]
    rfl
  | vInt i =>
    refine ⟨varMarker_Int :: st.intBytes i, ?_, ?_, rfl⟩
    · rw [writeToStream_int, List.append_assoc]; rfl
    · simp [hst.intBytes_length, specLengthField]
  | vInt64 i =>
    refine ⟨varMarker_Int64 :: st.int64Bytes i, ?_, ?_, rfl⟩
    · rw [writeToStream_int64, List.append_assoc]; rfl
    · simp [hst.int64Bytes_length, specLengthField]
  | vBool b =>
    refine ⟨[if b then varMarker_BoolTrue else varMarker_BoolFalse], ?_, rfl, ?_⟩
    · rw [writeToStream_bool, List.append_assoc]; rfl
    · cases b <;> rfl
  | vDouble d =>
    refine ⟨varMarker_Double :: st.doubleBytes d, ?_, ?_, rfl⟩
    · rw [writeToStream_double, List.append_assoc]; rfl
    · simp [hst.doubleBytes_length, specLengthField]
  | vString s =>
    have hlen := hsize s rfl
    refine ⟨varMarker_String :: (sl.toUTF8 s ++ [0]), ?_, ?_, rfl⟩
    · rw [writeToStream_string sl st s output hlen, List.append_assoc]; rfl
    · simp [specLengthField]
  | vObject p =>
    refine ⟨[], ?_, rfl, rfl⟩
    simp only [var.writeToStream, OutputStream.writeCompressedInt, List.append_nil]
    rfl
  | vMethod m =>
    refine ⟨[], ?_, rfl, rfl⟩
    simp only [var.writeToStream, OutputStream.writeCompressedInt, List.append_nil]
    rfl

/-- Witness of C3: a String value of five UTF-8 bytes, written after one earlier byte. -/
theorem writeToStream_length_field_witness :
    ∃ payload : List Byte,
      ((var.vString "aé€").writeToStream refStrings refStreams ⟨[9]⟩).written
          = (⟨[9]⟩ : OutputStream).written
              ++ refStreams.compressedIntBytes
                  (int.wrap (specLengthField refStrings (var.vString "aé€")))
              ++ payload
        ∧ (int.wrap (specLengthField refStrings (var.vString "aé€"))).val
            = specLengthField refStrings (var.vString "aé€")
        ∧ payload.length = specLengthField refStrings (var.vString "aé€")
        ∧ payload.head? = specMarker (var.vString "aé€") :=
  writeToStream_length_field refStrings refStreams refStreams_fixedWidth (var.vString "aé€")
    ⟨[9]⟩
    (fun s h => by cases h; decide)

/-- C4: when the stream starts with a length `n > 0` and then a marker byte `m` that is
none of `1` to `6`, followed by at least `n - 1` bytes, `readFromStream` returns the void
value and leaves the stream right after the `n - 1` bytes that follow the marker.  The
length `3` with the marker `99` and two more bytes is the case `n = 3`, `m = 99`. -/
theorem readFromStream_unknown_marker (sl : StringLib) (st : StreamLib)
    (input : InputStream) (n : int) (m : Byte) (rest : List Byte)
    (hread : st.readCompressedInt input = (n, ⟨m :: rest⟩)) (hn : 0 < n.val)
    (hm : m ≠ 1 ∧ m ≠ 2 ∧ m ≠ 3 ∧ m ≠ 4 ∧ m ≠ 5 ∧ m ≠ 6)
    (hrest : n.val - 1 ≤ rest.length) :
    ∃ skipped after : List Byte,
      rest = skipped ++ after ∧ (skipped.length : Int) = n.val - 1
        ∧ var.readFromStream sl st input = (var.null, ⟨after⟩) := by
  refine ⟨rest.take (n.val - 1).toNat, rest.drop (n.val - 1).toNat,
    (List.take_append_drop _ _).symm, ?_, ?_⟩
  · rw [List.length_take]
    omega
  · rw [readFromStream_of_marker sl st input n m rest hread hn]
    obtain ⟨h1, h2, h3, h4, h5, h6⟩ := hm
    rw [if_neg (show ¬ m = varMarker_Int from h1), if_neg (show ¬ m = varMarker_Int64 from h6),
      if_neg (show ¬ m = varMarker_BoolTrue from h2),
      if_neg (show ¬ m = varMarker_BoolFalse from h3),
      if_neg (show ¬ m = varMarker_Double from h4),
      if_neg (show ¬ m = varMarker_String from h5)]

/-- Witness of C4: the length `3` (bytes `1`, `3` in the reference stream library), the
marker `99`, the two bytes `10`, `20`, and a byte `7` after them. -/
theorem readFromStream_unknown_marker_witness :
    ∃ skipped after : List Byte,
      [10, 20, 7] = skipped ++ after ∧ (skipped.length : Int) = (3 : int).val - 1
        ∧ var.readFromStream refStrings refStreams ⟨[1, 3, 99, 10, 20, 7]⟩
            = (var.null, ⟨after⟩) :=
  readFromStream_unknown_marker refStrings refStreams ⟨[1, 3, 99, 10, 20, 7]⟩ 3 99 [10, 20, 7]
    (by decide) (by decide) (by decide) (by decide)

/-- C5: when the length at the front of the stream is zero or negative,
`readFromStream` returns the void value and the stream is where `readCompressedInt`
left it: no marker byte is read. -/
theorem readFromStream_nonpositive_length (sl : StringLib) (st : StreamLib)
    (input : InputStream) (hn : (st.readCompressedInt input).1.val ≤ 0) :
    var.readFromStream sl st input = (var.null, (st.readCompressedInt input).2) :=
  readFromStream_of_nonpos sl st input _ _ rfl hn

/-- Witness of C5: a stream that starts with the encoding of `-3`, with the reference
stream library; the bytes `1`, `2` after it are not read. -/
theorem readFromStream_nonpositive_length_witness :
    var.readFromStream refStrings refStreams ⟨[129, 3, 1, 2]⟩
      = (var.null, (refStreams.readCompressedInt ⟨[129, 3, 1, 2]⟩).2) :=
  readFromStream_nonpositive_length refStrings refStreams ⟨[129, 3, 1, 2]⟩ (by decide)

/-- C6: for a value of kind Object, Method or Void, `writeToStream` appends the encoding
of the length `0` and nothing else, and with a stream that reads back the length it
wrote, `readFromStream` on those bytes returns the void value. -/
theorem writeToStream_object_method_void (sl : StringLib) (st : StreamLib) (hst : st.Lawful)
    (v : var) (hkind : v.isObject = true ∨ v.isMethod = true ∨ v.isVoid = true)
    (output : OutputStream) (rest : List Byte) :
    (v.writeToStream sl st output).written = output.written ++ st.compressedIntBytes 0
      ∧ var.readFromStream sl st ⟨(v.writeToStream sl st ⟨[]⟩).written ++ rest⟩
          = (var.null, ⟨rest⟩) := by
  have hr : var.readFromStream sl st ⟨[] ++ st.compressedIntBytes 0 ++ rest⟩
      = (var.null, ⟨rest⟩) := by
    rw [List.nil_append]
    exact readFromStream_of_nonpos sl st _ _ 0 (hst.readCompressedInt_bytes 0 rest (by decide))
      (by decide)
  cases v with
  | vObject p => exact ⟨rfl, hr⟩
  | vMethod m => exact ⟨rfl, hr⟩
  | vVoid => exact ⟨rfl, hr⟩
  | vInt i => simp [var.isObject, var.isMethod, var.isVoid, var.type, VariantType.isObject,
      VariantType.isMethod, VariantType.isVoid] at hkind
  | vInt64 i => simp [var.isObject, var.isMethod, var.isVoid, var.type, VariantType.isObject,
      VariantType.isMethod, VariantType.isVoid] at hkind
  | vBool b => simp [var.isObject, var.isMethod, var.isVoid, var.type, VariantType.isObject,
      VariantType.isMethod, VariantType.isVoid] at hkind
  | vDouble d => simp [var.isObject, var.isMethod, var.isVoid, var.type, VariantType.isObject,
      VariantType.isMethod, VariantType.isVoid] at hkind
  | vString s => simp [var.isObject, var.isMethod, var.isVoid, var.type, VariantType.isObject,
      VariantType.isMethod, VariantType.isVoid] at hkind

/-- Witness of C6: an Object value holding the address `4096`, with the reference
libraries. -/
theorem writeToStream_object_method_void_witness :
    ((var.vObject 4096).writeToStream refStrings refStreams ⟨[9]⟩).written
        = (⟨[9]⟩ : OutputStream).written ++ refStreams.compressedIntBytes 0
      ∧ var.readFromStream refStrings refStreams
          ⟨((var.vObject 4096).writeToStream refStrings refStreams ⟨[]⟩).written ++ [1, 2]⟩
          = (var.null, ⟨[1, 2]⟩) :=
  writeToStream_object_method_void refStrings refStreams refStreams_lawful (var.vObject 4096)
    (Or.inl rfl) ⟨[9]⟩ [1, 2]

/-- C7: every variable of every program built from the constructors (default, native
values, copy) followed by assignments and swaps satisfies exactly one of the eight type
predicates; the default-constructed value and `var::null` are void. -/
theorem exactly_one_type_predicate (h : RefCounts) (prog : List Step) (v : var)
    (_hv : v ∈ ((Store.initial h).run prog).vars) :
    v.numTypePredicates = 1 ∧ var.ctor.isVoid = true ∧ var.null.isVoid = true := by
  refine ⟨?_, rfl, rfl⟩
  cases v <;> rfl

/-- Witness of C7: an Object variable built from a handle, a default-constructed one
that is assigned the first, then assigned a text, and swapped with the first. -/
theorem exactly_one_type_predicate_witness :
    (var.vString "x").numTypePredicates = 1 ∧ var.ctor.isVoid = true
      ∧ var.null.isVoid = true :=
  exactly_one_type_predicate (fun _ => 0)
    [Step.declareNative (Native.nObject 4096), Step.declare, Step.assign 1 0,
      Step.assignNative 1 (Native.nString "x"), Step.swap 0 1]
    (var.vString "x") (by simp [Store.run, Store.initial, Step.exec, Native.construct,
      Native.assignTo, var.ctorObject, var.ctor, var.assign, var.createCopy, var.cleanUp,
      var.assignString, var.ctorString, var.swapWith, var.dtor])

/-- C8: the conversions are functions defined on every value; a void value converts to
`0`, `0`, `0.0`, `false` and the empty text; an Object and a Method value convert to `0`
as `int`, `int64` and `double`; `getObject` is `nullptr` for every kind but Object; the
text of a Method value is `Method`. -/
theorem conversion_defaults (sl : StringLib) :
    (∀ v : var, ∃ (i : int) (l : int64) (d : Double) (b : Bool) (s : String),
        v.toInt sl = i ∧ v.toInt64 sl = l ∧ v.toDouble sl = d ∧ v.toBool sl = b
          ∧ v.toString sl = s)
      ∧ (var.vVoid.toInt sl = 0 ∧ var.vVoid.toInt64 sl = 0
          ∧ var.vVoid.toDouble sl = Double.zero ∧ var.vVoid.toBool sl = false
          ∧ var.vVoid.toString sl = "")
      ∧ (∀ p : ObjectPtr, (var.vObject p).toInt sl = 0 ∧ (var.vObject p).toInt64 sl = 0
          ∧ (var.vObject p).toDouble sl = Double.zero)
      ∧ (∀ m : MethodFunction, (var.vMethod m).toInt sl = 0 ∧ (var.vMethod m).toInt64 sl = 0
          ∧ (var.vMethod m).toDouble sl = Double.zero ∧ (var.vMethod m).toString sl = "Method")
      ∧ (∀ v : var, v.isObject = true ∨ v.getObject = 0) := by
  refine ⟨fun v => ⟨_, _, _, _, _, rfl, rfl, rfl, rfl, rfl⟩, ⟨rfl, rfl, rfl, rfl, rfl⟩,
    fun p => ⟨rfl, rfl, rfl⟩, fun m => ⟨rfl, rfl, rfl, rfl⟩, ?_⟩
  intro v
  cases v
  case vObject p => exact Or.inl rfl
  all_goals exact Or.inr rfl

/-- C9: `equalsWithSameType` holds exactly when the two values have the same kind and
`equals` holds, so it fails whenever the kinds differ; `Int (5)` and `Double (5.0)` are
equal for `equals` and not for `equalsWithSameType`. -/
theorem equalsWithSameType_iff (sl : StringLib) (a b : var) :
    (a.equalsWithSameType sl b = true ↔ (a.type = b.type ∧ a.equals sl b = true))
      ∧ (a.type = b.type ∨ a.equalsWithSameType sl b = false)
      ∧ (var.vInt 5).equalsWithSameType sl (var.vDouble (Double.ofInt 5)) = false
      ∧ (var.vInt 5).equals sl (var.vDouble (Double.ofInt 5)) = true := by
  refine ⟨?_, ?_, ?_, ?_⟩
  · simp [var.equalsWithSameType]
  · by_cases h : a.type = b.type
    · exact Or.inl h
    · exact Or.inr (by simp [var.equalsWithSameType, h])
  · simp [var.equalsWithSameType, var.type]
  · show decide ((Double.ofInt 5).toInt = 5) = true
    decide

/-- C10, counterexample: `Int (0)` equals the void value, since a void value converts to
`0`, while the void value equals only void values. -/
theorem equals_int_void_not_symmetric :
    (var.vInt 0).equals refStrings var.vVoid = true
      ∧ var.vVoid.equals refStrings (var.vInt 0) = false := by
  decide

/-- C10, as amended: `equals` is symmetric on two values of the same kind among Void,
Int, Int64, Bool, Double and String. -/
theorem equals_symmetric_same_kind (sl : StringLib) (a b : var) (hkind : a.type = b.type)
    (ha : a.isObject = false ∧ a.isMethod = false) :
    a.equals sl b = b.equals sl a := by
  cases a <;> cases b <;> simp [var.type] at hkind
  case vVoid.vVoid => rfl
  case vInt.vInt i j => simp [var.equals, var.toInt, eq_comm]
  case vInt64.vInt64 i j => simp [var.equals, var.toInt64, eq_comm]
  case vBool.vBool x y => simp [var.equals, var.toBool, Bool.beq_comm]
  case vDouble.vDouble x y => simp [var.equals, var.toDouble, Double.eq_comm]
  case vString.vString x y => simp [var.equals, var.toString, eq_comm]
  case vObject.vObject p q => simp [var.isObject, var.type, VariantType.isObject] at ha
  case vMethod.vMethod p q => simp [var.isMethod, var.type, VariantType.isMethod] at ha

/-- Witness of C10: two Double values, one of them NaN. -/
theorem equals_symmetric_same_kind_witness :
    (var.vDouble Double.nan).equals refStrings (var.vDouble Double.one)
      = (var.vDouble Double.one).equals refStrings (var.vDouble Double.nan) :=
  equals_symmetric_same_kind refStrings (var.vDouble Double.nan) (var.vDouble Double.one) rfl
    ⟨rfl, rfl⟩

/-- C11, counterexample: `Bool (true)` equals each of `Int (5)`, `Int64 (5)` and
`Double (5.0)`, since the Bool strategy converts the other value with `toBool` and
`5 != 0`. -/
theorem equals_bool_true_numeric_five :
    (var.vBool true).equals refStrings (var.vInt 5) = true
      ∧ (var.vBool true).equals refStrings (var.vInt64 5) = true
      ∧ (var.vBool true).equals refStrings (var.vDouble (Double.ofInt 5)) = true := by
  decide

/-- C11, as amended: with a text class in which five prints and parses as `5`, every
two of `Int (5)`, `Int64 (5)`, `Double (5.0)` and `String ("5")` are equal in both
directions; each of the three numbers does not equal `Bool (true)`, while `Bool (true)`
equals each of them. -/
theorem equals_truth_table_five (sl : StringLib) (h5 : sl.DecimalFive) :
    ([var.vInt 5, var.vInt64 5, var.vDouble (Double.ofInt 5), var.vString "5"].all
        (fun a => [var.vInt 5, var.vInt64 5, var.vDouble (Double.ofInt 5), var.vString "5"].all
          (fun b => a.equals sl b && b.equals sl a))) = true
      ∧ ([var.vInt 5, var.vInt64 5, var.vDouble (Double.ofInt 5)].all
          (fun n => !(n.equals sl (var.vBool true)) && (var.vBool true).equals sl n)) = true := by
  simp only [List.all_cons, List.all_nil, var.equals, var.toInt, var.toInt64, var.toDouble,
    var.toString, var.toBool, h5.ofInt_five, h5.ofInt64_five, h5.ofDouble_five,
    h5.getIntValue_five, h5.getLargeIntValue_five, h5.getDoubleValue_five]
  simp only [Bool.and_eq_true, decide_eq_true_eq, Bool.not_eq_true', beq_iff_eq,
    decide_eq_false_iff_not, if_true, and_self, and_true, true_and, bne_iff_ne]
  decide

/-- Witness of C11: the reference text library prints and parses five as `5`. -/
theorem equals_truth_table_five_witness :
    ([var.vInt 5, var.vInt64 5, var.vDouble (Double.ofInt 5), var.vString "5"].all
        (fun a => [var.vInt 5, var.vInt64 5, var.vDouble (Double.ofInt 5), var.vString "5"].all
          (fun b => a.equals refStrings b && b.equals refStrings a))) = true
      ∧ ([var.vInt 5, var.vInt64 5, var.vDouble (Double.ofInt 5)].all
          (fun n => !(n.equals refStrings (var.vBool true))
            && (var.vBool true).equals refStrings n)) = true :=
  equals_truth_table_five refStrings refStrings_decimalFive

/-- C12, counterexample: an Object value with a null handle equals `Int (5)` and the
void value, since `toObject` is `nullptr` for every kind but Object. -/
theorem equals_null_object_int :
    (var.vObject 0).equals refStrings (var.vInt 5) = true
      ∧ (var.vObject 0).equals refStrings var.vVoid = true := by
  decide

/-- C12, as amended: when `a` is a Method value, or an Object value with a handle that is
not null, `a.equals (b)` holds only if `b` has the kind and the handle of `a`; an Object
value with a null handle equals exactly the values whose `getObject` is null. -/
theorem equals_object_method_only_same (sl : StringLib) (a b : var)
    (ha : a.isMethod = true ∨ (a.isObject = true ∧ a.getObject ≠ 0))
    (he : a.equals sl b = true) :
    a.type = b.type ∧ b = a
      ∧ ∀ c : var, ((var.vObject 0).equals sl c = true ↔ c.getObject = 0) := by
  have hnull : ∀ c : var, ((var.vObject 0).equals sl c = true ↔ c.getObject = 0) := by
    intro c
    simp [var.equals]
  cases a
  case vMethod m =>
    cases b <;> simp [var.equals, var.isMethod, var.type, VariantType.isMethod] at he
    subst he
    exact ⟨rfl, rfl, hnull⟩
  case vObject p =>
    have hp : p ≠ 0 := by
      rcases ha with ha | ha
      · simp [var.isMethod, var.type, VariantType.isMethod] at ha
      · exact ha.2
    cases b <;> simp [var.equals, var.getObject] at he
    case vObject q =>
      subst he
      exact ⟨rfl, rfl, hnull⟩
    all_goals exact absurd he.symm hp
  all_goals simp [var.isMethod, var.isObject, var.type, VariantType.isMethod,
    VariantType.isObject] at ha

/-- Witness of C12: two Object values with the handle `4096`. -/
theorem equals_object_method_only_same_witness :
    (var.vObject 4096).type = (var.vObject 4096).type ∧ var.vObject 4096 = var.vObject 4096
      ∧ ∀ c : var, ((var.vObject 0).equals refStrings c = true ↔ c.getObject = 0) :=
  equals_object_method_only_same refStrings (var.vObject 4096) (var.vObject 4096)
    (Or.inr ⟨rfl, by decide⟩) (by decide)

/-- C13, counterexample: `Int (0)` and `Bool (true)` equal an Object value with a handle
that is not null, `Bool (false)` equals a null Method value, and the text `Method`
equals a Method value. -/
theorem equals_int_zero_object :
    (var.vInt 0).equals refStrings (var.vObject 4096) = true
      ∧ (var.vBool true).equals refStrings (var.vObject 4096) = true
      ∧ (var.vBool false).equals refStrings (var.vMethod 0) = true
      ∧ (var.vString "Method").equals refStrings (var.vMethod 7) = true := by
  decide

/-- C13, as amended: for `a` of kind Int, Int64, Double, Bool or String, `a.equals (b)`
against an Object value `b` with the handle `p`, and against a Method value `b` with the
handle `m`, holds exactly when the payload of `a` is what `b` converts to: `0` for Int
and Int64, plus or minus `0.0` for Double, "the handle is not null" for Bool, and for
String the text `Object 0x` followed by the hexadecimal digits of the handle cast to
`int`, or the text `Method`. -/
theorem equals_object_method_right (sl : StringLib) (a : var) (p : ObjectPtr)
    (m : MethodFunction)
    (ha : a.isInt = true ∨ a.isInt64 = true ∨ a.isDouble = true ∨ a.isBool = true
      ∨ a.isString = true) :
    a.equals sl (var.vObject p) =
        (match a with
          | .vInt i => decide (i = 0)
          | .vInt64 i => decide (i = 0)
          | .vDouble d => d.isZero
          | .vBool x => x == (p != 0)
          | .vString s => s == "Object 0x" ++ sl.toHexString (int.wrap p)
          | _ => false)
      ∧ a.equals sl (var.vMethod m) =
        (match a with
          | .vInt i => decide (i = 0)
          | .vInt64 i => decide (i = 0)
          | .vDouble d => d.isZero
          | .vBool x => x == (m != 0)
          | .vString s => s == "Method"
          | _ => false) := by
  cases a
  case vInt i => simp [var.equals, var.toInt, eq_comm]
  case vInt64 i => simp [var.equals, var.toInt64, eq_comm]
  case vDouble d => simp [var.equals, var.toDouble, Double.zero_eq]
  case vBool x =>
    simp only [var.equals, var.toBool]
    exact ⟨Bool.beq_comm, Bool.beq_comm⟩
  case vString s =>
    simp only [var.equals, var.toString]
    exact ⟨Bool.beq_comm, Bool.beq_comm⟩
  all_goals simp [var.isInt, var.isInt64, var.isDouble, var.isBool, var.isString, var.type,
    VariantType.isInt, VariantType.isInt64, VariantType.isDouble, VariantType.isBool,
    VariantType.isString] at ha

/-- Witness of C13: the text `Method` against the Object value with the handle `4096` and
against the Method value with the handle `7`. -/
theorem equals_object_method_right_witness :
    (var.vString "Method").equals refStrings (var.vObject 4096)
        = ("Method" == "Object 0x" ++ refStrings.toHexString (int.wrap 4096))
      ∧ (var.vString "Method").equals refStrings (var.vMethod 7) = ("Method" == "Method") :=
  equals_object_method_right refStrings (var.vString "Method") 4096 7
    (Or.inr (Or.inr (Or.inr (Or.inr rfl))))

/-- C14: when `v` is not an Object value whose handle is not null and leads to a
`DynamicObject`, `v[name]` and `v.invoke (name, args)` return the void value and call
nothing; when `w` is not a Method value, `w.invokeMethod (target, args)` returns the void
value and calls nothing, for every target that is not null. -/
theorem forwarding_without_capability (ol : ObjectLib) (v w : var) (name : Identifier)
    (args : List var) (target : ObjectPtr)
    (hv : v.isObject = false ∨ v.getObject = 0 ∨ ol.isDynamicObject v.getObject = false)
    (hw : w.isMethod = false) (_ht : target ≠ 0) :
    v.index ol name = (var.null, []) ∧ v.invoke ol name args = (var.null, [])
      ∧ w.invokeMethod ol target args = (var.null, []) := by
  have hd : v.getDynamicObject ol = 0 := by
    rcases hv with hv | hv | hv
    · cases v <;> simp [var.isObject, var.type, VariantType.isObject] at hv <;>
        simp [var.getDynamicObject, var.getObject]
    · simp [var.getDynamicObject, hv]
    · simp [var.getDynamicObject, hv]
  refine ⟨?_, ?_, ?_⟩
  · simp [var.index, hd]
  · simp [var.invoke, hd]
  · simp [var.invokeMethod, hw]

/-- Witness of C14: `Int (5)["x"]`, `Int (5).invoke ("f", ...)`, and `invokeMethod` on a
text, with objects that would answer `Int (1)` to every call. -/
theorem forwarding_without_capability_witness :
    (var.vInt 5).index ⟨fun _ => true, fun _ _ => var.vInt 1, fun _ _ _ => var.vInt 1,
        fun _ _ _ => var.vInt 1⟩ "x" = (var.null, [])
      ∧ (var.vInt 5).invoke ⟨fun _ => true, fun _ _ => var.vInt 1, fun _ _ _ => var.vInt 1,
        fun _ _ _ => var.vInt 1⟩ "x" [var.vBool true] = (var.null, [])
      ∧ (var.vString "f").invokeMethod ⟨fun _ => true, fun _ _ => var.vInt 1,
        fun _ _ _ => var.vInt 1, fun _ _ _ => var.vInt 1⟩ 4096 [var.vBool true]
          = (var.null, []) :=
  forwarding_without_capability ⟨fun _ => true, fun _ _ => var.vInt 1, fun _ _ _ => var.vInt 1,
    fun _ _ _ => var.vInt 1⟩ (var.vInt 5) (var.vString "f") "x" [var.vBool true] 4096
    (Or.inl rfl) rfl (by decide)

/-- C15: for an Object value `a` with a handle `p` that is not null, the copy constructor
gives a value with the same handle, equal to `a`, and adds one to the count of `p` only;
destroying the copy gives the counts from before the copy.  The constructor from the
handle `p` adds one to the count of `p` only and the destructor of the value it built
subtracts it again.  With a null handle no count changes. -/
theorem reference_count_bookkeeping (sl : StringLib) (h : RefCounts) (p : ObjectPtr)
    (hp : p ≠ 0) :
    ((var.vObject p).ctorCopy h).1 = var.vObject p
      ∧ ((var.vObject p).ctorCopy h).1.equals sl (var.vObject p) = true
      ∧ ((var.vObject p).ctorCopy h).2 p = h p + 1
      ∧ (∀ q : ObjectPtr, q = p ∨ ((var.vObject p).ctorCopy h).2 q = h q)
      ∧ ((var.vObject p).ctorCopy h).1.dtor ((var.vObject p).ctorCopy h).2 = h
      ∧ (var.ctorObject p h).1 = var.vObject p
      ∧ (var.ctorObject p h).2 p = h p + 1
      ∧ (∀ q : ObjectPtr, q = p ∨ (var.ctorObject p h).2 q = h q)
      ∧ (var.ctorObject p h).1.dtor (var.ctorObject p h).2 p = (var.ctorObject p h).2 p - 1
      ∧ (var.ctorObject p h).1.dtor (var.ctorObject p h).2 = h
      ∧ (var.ctorObject 0 h).2 = h
      ∧ ((var.vObject 0).ctorCopy h).2 = h
      ∧ (var.vObject 0).dtor h = h := by
  have hb : (p != 0) = true := by simpa using hp
  have hback : decReferenceCount (incReferenceCount h p) p = h := by
    funext q
    simp only [decReferenceCount, incReferenceCount]
    split <;> omega
  have hframe : ∀ q : ObjectPtr, q = p ∨ incReferenceCount h p q = h q := by
    intro q
    by_cases hq : q = p
    · exact Or.inl hq
    · exact Or.inr (by simp [incReferenceCount, hq])
  have hinc : incReferenceCount h p p = h p + 1 := by simp [incReferenceCount]
  have hc : (var.vObject p).ctorCopy h = (var.vObject p, incReferenceCount h p) := by
    simp only [var.ctorCopy, var.createCopy, hb, if_true]
  have ho : var.ctorObject p h = (var.vObject p, incReferenceCount h p) := by
    simp only [var.ctorObject, hb, if_true]
  have hd : ∀ k : RefCounts, (var.vObject p).dtor k = decReferenceCount k p := by
    intro k
    simp only [var.dtor, var.cleanUp, hb, if_true]
  rw [hc, ho]
  refine ⟨rfl, by simp [var.equals, var.getObject], hinc, hframe, ?_, rfl, hinc, hframe,
    ?_, ?_, rfl, rfl, rfl⟩
  · rw [hd, hback]
  · rw [hd]
    simp [decReferenceCount]
  · rw [hd, hback]

/-- Witness of C15: the object at `4096` with the count `2`. -/
theorem reference_count_bookkeeping_witness :
    ((var.vObject 4096).ctorCopy (fun _ => 2)).1 = var.vObject 4096
      ∧ ((var.vObject 4096).ctorCopy (fun _ => 2)).1.equals refStrings (var.vObject 4096) = true
      ∧ ((var.vObject 4096).ctorCopy (fun _ => 2)).2 4096 = (fun _ => 2) 4096 + 1
      ∧ (∀ q : ObjectPtr,
          q = 4096 ∨ ((var.vObject 4096).ctorCopy (fun _ => 2)).2 q = (fun _ => 2) q)
      ∧ ((var.vObject 4096).ctorCopy (fun _ => 2)).1.dtor
          ((var.vObject 4096).ctorCopy (fun _ => 2)).2 = (fun _ => 2)
      ∧ (var.ctorObject 4096 (fun _ => 2)).1 = var.vObject 4096
      ∧ (var.ctorObject 4096 (fun _ => 2)).2 4096 = (fun _ => 2) 4096 + 1
      ∧ (∀ q : ObjectPtr, q = 4096 ∨ (var.ctorObject 4096 (fun _ => 2)).2 q = (fun _ => 2) q)
      ∧ (var.ctorObject 4096 (fun _ => 2)).1.dtor (var.ctorObject 4096 (fun _ => 2)).2 4096
          = (var.ctorObject 4096 (fun _ => 2)).2 4096 - 1
      ∧ (var.ctorObject 4096 (fun _ => 2)).1.dtor (var.ctorObject 4096 (fun _ => 2)).2
          = (fun _ => 2)
      ∧ (var.ctorObject 0 (fun _ => 2)).2 = (fun _ => 2)
      ∧ ((var.vObject 0).ctorCopy (fun _ => 2)).2 = (fun _ => 2)
      ∧ (var.vObject 0).dtor (fun _ => 2) = (fun _ => 2) :=
  reference_count_bookkeeping refStrings (fun _ => 2) 4096 (by decide)

/-- C16: for variables `i` and `j` holding `a` and `b`, the swap leaves `i` with the
former kind and payload of `b` and `j` with those of `a`, leaves every other variable
and every reference count as it was, and a second swap restores the store. -/
theorem swapWith_exchanges (s : Store) (i j : Nat) (a b : var)
    (hi : s.vars.get? i = some a) (hj : s.vars.get? j = some b) :
    a.swapWith b = (b, a)
      ∧ (a.swapWith b).1.swapWith (a.swapWith b).2 = (a, b)
      ∧ (Step.exec s (Step.swap i j)).vars.get? i = some b
      ∧ (Step.exec s (Step.swap i j)).vars.get? j = some a
      ∧ (∀ k : Nat, k = i ∨ k = j
          ∨ (Step.exec s (Step.swap i j)).vars.get? k = s.vars.get? k)
      ∧ (Step.exec s (Step.swap i j)).refs = s.refs
      ∧ Step.exec (Step.exec s (Step.swap i j)) (Step.swap i j) = s := by
  have hab : i = j → a = b := by
    intro h
    rw [h, hj] at hi
    exact (Option.some.inj hi).symm
  have hib : (s.vars.set i b).get? i = some b := get?_set_same _ _ _ _ hi
  have h1 : ((s.vars.set i b).set j a).get? i = some b := by
    by_cases hij : i = j
    · rw [← hij, get?_set_same _ _ _ _ hib, hab hij]
    · rw [get?_set_other _ _ _ _ hij, hib]
  have h2 : ((s.vars.set i b).set j a).get? j = some a := by
    by_cases hij : j = i
    · rw [hij, get?_set_same _ _ _ _ hib]
    · have hjb : (s.vars.set i b).get? j = some b := by
        rw [get?_set_other _ _ _ _ hij, hj]
      rw [get?_set_same _ _ _ _ hjb]
  rw [exec_swap s i j a b hi hj]
  refine ⟨rfl, rfl, h1, h2, ?_, rfl, ?_⟩
  · intro k
    by_cases hki : k = i
    · exact Or.inl hki
    · by_cases hkj : k = j
      · exact Or.inr (Or.inl hkj)
      · refine Or.inr (Or.inr ?_)
        show ((s.vars.set i b).set j a).get? k = s.vars.get? k
        rw [get?_set_other _ _ _ _ hkj, get?_set_other _ _ _ _ hki]
  · rw [exec_swap _ i j b a h1 h2]
    obtain ⟨vars, refs⟩ := s
    simp only [Store.mk.injEq, and_true]
    simp only at hi hj h1 h2
    apply List.ext_get?
    intro k
    simp only [get?_set_list]
    split_ifs <;> simp_all

/-- Witness of C16: a text and an Object value, in a store with a third variable. -/
theorem swapWith_exchanges_witness :
    (var.vString "x").swapWith (var.vObject 4096) = (var.vObject 4096, var.vString "x")
      ∧ ((var.vString "x").swapWith (var.vObject 4096)).1.swapWith
          ((var.vString "x").swapWith (var.vObject 4096)).2
            = (var.vString "x", var.vObject 4096)
      ∧ (Step.exec ⟨[var.vString "x", var.vInt 1, var.vObject 4096], fun _ => 1⟩
          (Step.swap 0 2)).vars.get? 0 = some (var.vObject 4096)
      ∧ (Step.exec ⟨[var.vString "x", var.vInt 1, var.vObject 4096], fun _ => 1⟩
          (Step.swap 0 2)).vars.get? 2 = some (var.vString "x")
      ∧ (∀ k : Nat, k = 0 ∨ k = 2
          ∨ (Step.exec ⟨[var.vString "x", var.vInt 1, var.vObject 4096], fun _ => 1⟩
              (Step.swap 0 2)).vars.get? k
            = (⟨[var.vString "x", var.vInt 1, var.vObject 4096], fun _ => 1⟩ : Store).vars.get? k)
      ∧ (Step.exec ⟨[var.vString "x", var.vInt 1, var.vObject 4096], fun _ => 1⟩
          (Step.swap 0 2)).refs
            = (⟨[var.vString "x", var.vInt 1, var.vObject 4096], fun _ => 1⟩ : Store).refs
      ∧ Step.exec (Step.exec ⟨[var.vString "x", var.vInt 1, var.vObject 4096], fun _ => 1⟩
          (Step.swap 0 2)) (Step.swap 0 2)
            = ⟨[var.vString "x", var.vInt 1, var.vObject 4096], fun _ => 1⟩ :=
  swapWith_exchanges ⟨[var.vString "x", var.vInt 1, var.vObject 4096], fun _ => 1⟩ 0 2
    (var.vString "x") (var.vObject 4096) rfl rfl

/-- C18, the code on every self-assignment of a sole owner: `a` is an Object value whose
handle `p` is not null, the object at `p` is alive and `a` holds the only reference to it
(count `1`).  In `a = a` the first statement of `operator= (const var&)`, the `cleanUp`,
brings the count to `0`, at which `decReferenceCount` deletes the object; `createCopy`
then installs the same handle again and counts a reference on the deleted object: `a`
ends with a handle to a deleted object.  The assignment of the same handle through
`operator= (ReferenceCountedObject*)`, which builds a temporary and swaps, leaves the
object alive with the count `1`. -/
theorem self_assignment_deletes_object (h : Heap) (p : ObjectPtr) (hp : p ≠ 0)
    (hcount : h.refCount p = 1) (hlive : h.deleted p = false) :
    ((var.vObject p).cleanUpOn h).refCount p = 0
      ∧ ((var.vObject p).cleanUpOn h).deleted p = true
      ∧ ((var.vObject p).assignOn (var.vObject p) h).1 = var.vObject p
      ∧ ((var.vObject p).assignOn (var.vObject p) h).2.refCount p = 1
      ∧ ((var.vObject p).assignOn (var.vObject p) h).2.deleted p = true
      ∧ ((var.vObject p).assignOn (var.vObject p) h).1.dangling
          ((var.vObject p).assignOn (var.vObject p) h).2 = true
      ∧ ((var.vObject p).assignObjectOn p h).1 = var.vObject p
      ∧ ((var.vObject p).assignObjectOn p h).2.refCount p = 1
      ∧ ((var.vObject p).assignObjectOn p h).2.deleted p = false
      ∧ ((var.vObject p).assignObjectOn p h).1.dangling
          ((var.vObject p).assignObjectOn p h).2 = false := by
  simp [var.cleanUpOn, var.createCopyOn, var.assignOn, var.assignObjectOn, var.ctorObjectOn,
    var.dtorOn, var.swapWith, var.dangling, Heap.decReferenceCount, Heap.incReferenceCount,
    decReferenceCount, incReferenceCount, hp, hcount, hlive]

/-- Witness of C18: the object at `4096`, alive, with the count `1`, and the
self-assignment of the value that holds it. -/
theorem self_assignment_deletes_object_witness :
    ((var.vObject 4096).cleanUpOn ⟨fun q => if q = 4096 then 1 else 0, fun _ => false⟩).refCount
        4096 = 0
      ∧ ((var.vObject 4096).cleanUpOn
          ⟨fun q => if q = 4096 then 1 else 0, fun _ => false⟩).deleted 4096 = true
      ∧ ((var.vObject 4096).assignOn (var.vObject 4096)
          ⟨fun q => if q = 4096 then 1 else 0, fun _ => false⟩).1 = var.vObject 4096
      ∧ ((var.vObject 4096).assignOn (var.vObject 4096)
          ⟨fun q => if q = 4096 then 1 else 0, fun _ => false⟩).2.refCount 4096 = 1
      ∧ ((var.vObject 4096).assignOn (var.vObject 4096)
          ⟨fun q => if q = 4096 then 1 else 0, fun _ => false⟩).2.deleted 4096 = true
      ∧ ((var.vObject 4096).assignOn (var.vObject 4096)
          ⟨fun q => if q = 4096 then 1 else 0, fun _ => false⟩).1.dangling
          ((var.vObject 4096).assignOn (var.vObject 4096)
            ⟨fun q => if q = 4096 then 1 else 0, fun _ => false⟩).2 = true
      ∧ ((var.vObject 4096).assignObjectOn 4096
          ⟨fun q => if q = 4096 then 1 else 0, fun _ => false⟩).1 = var.vObject 4096
      ∧ ((var.vObject 4096).assignObjectOn 4096
          ⟨fun q => if q = 4096 then 1 else 0, fun _ => false⟩).2.refCount 4096 = 1
      ∧ ((var.vObject 4096).assignObjectOn 4096
          ⟨fun q => if q = 4096 then 1 else 0, fun _ => false⟩).2.deleted 4096 = false
      ∧ ((var.vObject 4096).assignObjectOn 4096
          ⟨fun q => if q = 4096 then 1 else 0, fun _ => false⟩).1.dangling
          ((var.vObject 4096).assignObjectOn 4096
            ⟨fun q => if q = 4096 then 1 else 0, fun _ => false⟩).2 = false :=
  self_assignment_deletes_object ⟨fun q => if q = 4096 then 1 else 0, fun _ => false⟩ 4096
    (by decide) (by decide) rfl

/-- C19: an Int64 value of `n` converts to `int` by truncation to 32 bits (`n` modulo
`2 ^ 32`, read as a signed number), to `bool` as `n != 0` and to `int64` as `n`; for
`n = 2 ^ 32` the `int` is `0` and the `bool` is true; `Int (k)` equals `Int64 (n)`
exactly when `k` is the truncation of `n`. -/
theorem int64_conversions (sl : StringLib) (n : int64) (k : int) :
    ((var.vInt64 n).toInt sl).val
        = (if n.val % 4294967296 < 2147483648 then n.val % 4294967296
            else n.val % 4294967296 - 4294967296)
      ∧ ((var.vInt64 n).toBool sl = true ↔ n.val ≠ 0)
      ∧ (var.vInt64 n).toInt64 sl = n
      ∧ (var.vInt64 (int64.wrap 4294967296)).toInt sl = 0
      ∧ (var.vInt64 (int64.wrap 4294967296)).toBool sl = true
      ∧ ((var.vInt k).equals sl (var.vInt64 n) = true
          ↔ k.val = (if n.val % 4294967296 < 2147483648 then n.val % 4294967296
              else n.val % 4294967296 - 4294967296)) := by
  have ht : (int64.toInt n).val
      = (if n.val % 4294967296 < 2147483648 then n.val % 4294967296
          else n.val % 4294967296 - 4294967296) := by
    simp only [int64.toInt, int.wrap]
    split <;> omega
  refine ⟨ht, ?_, rfl, rfl, rfl, ?_⟩
  · simp [var.toBool]
  · rw [← ht]
    simp only [var.equals, var.toInt, decide_eq_true_eq]
    constructor
    · intro h
      rw [h]
    · intro h
      exact int_ext h.symm

/-- C20, counterexample: after `readFromStream` on the bytes written for the text of
2147483646 letters `a`, with nothing after them, the stream is not at its end: the
marker, the UTF-8 bytes and the terminator are still unread. -/
theorem readFromStream_hugeText_position :
    (var.readFromStream refStrings refStreams
        ⟨((var.vString hugeText).writeToStream refStrings refStreams ⟨[]⟩).written ++ []⟩).2
      = ⟨varMarker_String :: (refStrings.toUTF8 hugeText ++ [0])⟩
      ∧ (⟨varMarker_String :: (refStrings.toUTF8 hugeText ++ [0])⟩ : InputStream) ≠ ⟨[]⟩ := by
  constructor
  · have h := readFromStream_of_nonpos refStrings refStreams
      ⟨compressedIntBytes (int.wrap (-2147483648))
        ++ varMarker_String :: (List.replicate 2147483646 (97 : Byte) ++ [0])⟩
      ⟨varMarker_String :: (List.replicate 2147483646 (97 : Byte) ++ [0])⟩
      (int.wrap (-2147483648)) (readCompressedInt_minInt _) (by decide)
    rw [List.append_nil, writeToStream_hugeText, h, toUTF8_hugeText]
  · intro h
    have h2 := congrArg InputStream.remaining h
    exact List.noConfusion h2

/-- C20, as amended: for values of kind Void, Int, Int64, Bool, Double or String, the
UTF-8 length of a text being at most 2147483645, and number encodings that the stream
inverts, `readFromStream` on the bytes written for `v` followed by `rest` leaves the
stream at the start of `rest`; and as many calls of `readFromStream` as there are values
in `vs`, on the bytes written for them back to back and followed by `rest`, return the
values in order (a text as the text class decodes its UTF-8 bytes) and leave the stream
at the start of `rest`. -/
theorem readFromStream_consumes_written (sl : StringLib) (st : StreamLib) (hst : st.Lawful)
    (v : var) (vs : List var) (hv : v.streamable sl) (hvs : ∀ w ∈ vs, w.streamable sl)
    (rest : List Byte) :
    var.readFromStream sl st ⟨(v.writeToStream sl st ⟨[]⟩).written ++ rest⟩
        = (v.decoded sl, ⟨rest⟩)
      ∧ var.readMany sl st vs.length ⟨(var.writeAll sl st vs ⟨[]⟩).written ++ rest⟩
          = (vs.map (var.decoded sl), ⟨rest⟩) :=
  ⟨readFromStream_decoded sl st hst v hv rest, readMany_writeAll sl st hst vs hvs rest⟩

/-- Witness of C20: a text alone, and a void value, an `int`, a text, a `bool` and a
`double` written back to back, with two bytes after them. -/
theorem readFromStream_consumes_written_witness :
    var.readFromStream refStrings refStreams
        ⟨((var.vString "aé").writeToStream refStrings refStreams ⟨[]⟩).written ++ [1, 2]⟩
        = ((var.vString "aé").decoded refStrings, ⟨[1, 2]⟩)
      ∧ var.readMany refStrings refStreams
          [var.vVoid, var.vInt 7, var.vString "aé", var.vBool true,
            var.vDouble Double.one].length
          ⟨(var.writeAll refStrings refStreams
            [var.vVoid, var.vInt 7, var.vString "aé", var.vBool true, var.vDouble Double.one]
            ⟨[]⟩).written ++ [1, 2]⟩
          = ([var.vVoid, var.vInt 7, var.vString "aé", var.vBool true,
              var.vDouble Double.one].map (var.decoded refStrings), ⟨[1, 2]⟩) :=
  readFromStream_consumes_written refStrings refStreams refStreams_lawful (var.vString "aé")
    [var.vVoid, var.vInt 7, var.vString "aé", var.vBool true, var.vDouble Double.one]
    (by decide) (by decide) [1, 2]

/-- C21: a value of any kind but Double, whether Void, Int, Int64, Bool, String, Object
(with a null handle or not) or Method, equals itself, also with the same type. -/
theorem equals_reflexive (sl : StringLib) (v : var) (hv : v.isDouble = false) :
    v.equals sl v = true ∧ v.equalsWithSameType sl v = true := by
  have h : v.equals sl v = true := by
    apply equals_self
    intro d hd
    rw [hd] at hv
    simp [var.isDouble, var.type, VariantType.isDouble] at hv
  exact ⟨h, by simp [var.equalsWithSameType, h]⟩

/-- Witness of C21: an Object value with a null handle. -/
theorem equals_reflexive_witness :
    (var.vObject 0).equals refStrings (var.vObject 0) = true
      ∧ (var.vObject 0).equalsWithSameType refStrings (var.vObject 0) = true :=
  equals_reflexive refStrings (var.vObject 0) rfl

/-- C22: whatever the stream holds and whatever the stream calls return, the value that
`readFromStream` returns is never an Object or a Method value, and its kind is fixed by
the length and the marker byte (the byte that `readByte` gives after the length): Void
for a length that is not positive, else Int for the marker `1`, Int64 for `6`, Bool for
`2` (the value true) and `3` (the value false), Double for `4`, String for `5`, and Void
for every other marker. -/
theorem readFromStream_kind (sl : StringLib) (st : StreamLib) (input : InputStream) :
    (var.readFromStream sl st input).1.isObject = false
      ∧ (var.readFromStream sl st input).1.isMethod = false
      ∧ (var.readFromStream sl st input).1.type
          = (if (st.readCompressedInt input).1.val ≤ 0 then VariantType.VariantType_Void
            else if (st.readCompressedInt input).2.readByte.1 = 1 then
              VariantType.VariantType_Int
            else if (st.readCompressedInt input).2.readByte.1 = 6 then
              VariantType.VariantType_Int64
            else if (st.readCompressedInt input).2.readByte.1 = 2 then
              VariantType.VariantType_Bool
            else if (st.readCompressedInt input).2.readByte.1 = 3 then
              VariantType.VariantType_Bool
            else if (st.readCompressedInt input).2.readByte.1 = 4 then
              VariantType.VariantType_Double
            else if (st.readCompressedInt input).2.readByte.1 = 5 then
              VariantType.VariantType_String
            else VariantType.VariantType_Void)
      ∧ ((st.readCompressedInt input).1.val ≤ 0
          ∨ (st.readCompressedInt input).2.readByte.1 ≠ 2
          ∨ (var.readFromStream sl st input).1 = var.vBool true)
      ∧ ((st.readCompressedInt input).1.val ≤ 0
          ∨ (st.readCompressedInt input).2.readByte.1 ≠ 3
          ∨ (var.readFromStream sl st input).1 = var.vBool false) := by
  generalize hr : st.readCompressedInt input = r
  obtain ⟨n, input1⟩ := r
  show _ ∧ _ ∧ _ = (if n.val ≤ 0 then _ else if input1.readByte.1 = 1 then _
    else if input1.readByte.1 = 6 then _ else if input1.readByte.1 = 2 then _
    else if input1.readByte.1 = 3 then _ else if input1.readByte.1 = 4 then _
    else if input1.readByte.1 = 5 then _ else _)
    ∧ (n.val ≤ 0 ∨ input1.readByte.1 ≠ 2 ∨ _) ∧ (n.val ≤ 0 ∨ input1.readByte.1 ≠ 3 ∨ _)
  generalize hb : input1.readByte = rb
  obtain ⟨m, input2⟩ := rb
  show _ ∧ _ ∧ _ = (if n.val ≤ 0 then _ else if m = 1 then _ else if m = 6 then _
    else if m = 2 then _ else if m = 3 then _ else if m = 4 then _ else if m = 5 then _
    else _) ∧ (n.val ≤ 0 ∨ m ≠ 2 ∨ _) ∧ (n.val ≤ 0 ∨ m ≠ 3 ∨ _)
  by_cases hn : n.val ≤ 0
  · rw [readFromStream_of_nonpos sl st input input1 n hr hn, if_pos hn]
    exact ⟨rfl, rfl, rfl, Or.inl hn, Or.inl hn⟩
  · rw [readFromStream_of_byte sl st input input1 input2 n m hr hb (by omega), if_neg hn]
    by_cases h1 : m = 1
    · subst h1
      exact ⟨rfl, rfl, rfl, Or.inr (Or.inl (by decide)), Or.inr (Or.inl (by decide))⟩
    by_cases h6 : m = 6
    · subst h6
      exact ⟨rfl, rfl, rfl, Or.inr (Or.inl (by decide)), Or.inr (Or.inl (by decide))⟩
    by_cases h2 : m = 2
    · subst h2
      exact ⟨rfl, rfl, rfl, Or.inr (Or.inr rfl), Or.inr (Or.inl (by decide))⟩
    by_cases h3 : m = 3
    · subst h3
      exact ⟨rfl, rfl, rfl, Or.inr (Or.inl (by decide)), Or.inr (Or.inr rfl)⟩
    by_cases h4 : m = 4
    · subst h4
      exact ⟨rfl, rfl, rfl, Or.inr (Or.inl (by decide)), Or.inr (Or.inl (by decide))⟩
    by_cases h5 : m = 5
    · subst h5
      exact ⟨rfl, rfl, rfl, Or.inr (Or.inl (by decide)), Or.inr (Or.inl (by decide))⟩
    rw [if_neg (show ¬ m = varMarker_Int from h1), if_neg (show ¬ m = varMarker_Int64 from h6),
      if_neg (show ¬ m = varMarker_BoolTrue from h2),
      if_neg (show ¬ m = varMarker_BoolFalse from h3),
      if_neg (show ¬ m = varMarker_Double from h4),
      if_neg (show ¬ m = varMarker_String from h5),
      if_neg h1, if_neg h6, if_neg h2, if_neg h3, if_neg h4, if_neg h5]
    exact ⟨rfl, rfl, rfl, Or.inr (Or.inl h2), Or.inr (Or.inl h3)⟩

end juce
